import Mathlib

/-!
# roboSim: the navigation, guidance and control core (`roboBrain.cpp`)

A shallow embedding of `roboBrain.cpp`.

* `double` values live in an arbitrary linearly ordered field `α` with a floor
  function; the definitions are computable and can be run at `α := ℚ`, while the
  theorems hold for every such field, `ℝ` included.
* C arrays are lists whose length is the capacity of the array.  Every
  subscript is checked: an access outside the array makes the operation return
  `none`, which stands for the undefined behaviour of the C++ program.
* `char` values are kept as their bit patterns `0 .. 255`.
* The constants that the header `roboBrain.h` declares (`timeSpot`, `checksumSpot`,
  `bufferMax`, `re`...) are the fields of a `Config`, so that every theorem holds
  for whatever values they have; the C library functions `atof` and `cos` and
  the method `waypoint::heading()` are function parameters.
-/

namespace RoboSim

/-! ## Data model -/

/-- A 2D point `(easting, northing)`: the class `waypoint` (a `Vector<2>`). -/
structure waypoint (α : Type) where
  easting : α
  northing : α
deriving DecidableEq, Repr

/-- Componentwise difference, `operator-` of `Vector<2>`. -/
def waypoint.sub {α : Type} [Sub α] (a b : waypoint α) : waypoint α :=
  ⟨a.easting - b.easting, a.northing - b.northing⟩

/-- Modelled from the spec: the function `dot` of the vector library (`Vector.h`), whose body
is missing here; the spec calls it "the dot product". -/
def dot {α : Type} [Add α] [Mul α] (a b : waypoint α) : α :=
  a.easting * b.easting + a.northing * b.northing

/-- The constants of `roboBrain.h`. -/
structure Config (α : Type) where
  timeSpot : Nat
  statusSpot : Nat
  latSpot : Nat
  nsSpot : Nat
  longSpot : Nat
  ewSpot : Nat
  headingSpot : Nat
  checksumSpot : Nat
  bufferMax : Int
  bufferDiscard : Int
  re : α
  PI : α
  wheelRadius : α
  /-- Whether plain `char` is signed on the target. -/
  charSigned : Bool

/-- The data members of class `roboBrain`. -/
structure RoboBrain (α : Type) where
  heading : α
  pos : waypoint α
  headingChange : α
  desiredHeading : α
  nowpoint : Int
  partCount : Nat
  charsReceived : Nat
  sentenceStart : Bool
  wheelCount : Nat
  bufferSpot : Int
  nmeaReceived : List Nat
  partitions : List Nat
  ofBuffer : List Int
  offSet : α
  lat0 : α
  long0 : α
  epochTime : α
  dt : α
  yawRate : α
  zDN : Int
  timeStamp : α
  dtOdometer : α

/-- The table `roboBrain::waypoints`. -/
def waypoints (α : Type) [Field α] : List (waypoint α) :=
  [ ⟨0, 0⟩,
    ⟨-(2642 / 100), 2183 / 100⟩,
    ⟨-(1953 / 100), 3055 / 100⟩,
    ⟨29 / 100, 1432 / 100⟩,
    ⟨1172 / 100, 2872 / 100⟩,
    ⟨2383 / 100, 1939 / 100⟩,
    ⟨970 / 100, 277 / 100⟩,
    ⟨624 / 100, 557 / 100⟩,
    ⟨336 / 100, 249 / 100⟩,
    ⟨691 / 100, -(11 / 100)⟩,
    ⟨393 / 100, -(328 / 100)⟩ ]

/-- The constant `wpcount = sizeof(waypoints)/sizeof(waypoint)`. -/
def wpcount : Int := 11

/-- Subscript of a C array with an `int` index; `none` outside the array. -/
def idx {β : Type} (l : List β) (i : Int) : Option β :=
  if 0 ≤ i then l[i.toNat]? else none

/-! ## Gyro bias calibration -/

/-- The function `roboBrain::fillBuffer`, with `gz` the sample `g[2]` read from the gyro. -/
def fillBuffer {α : Type} (gz : Int) (s : RoboBrain α) : Option (RoboBrain α) :=
  if 0 ≤ s.bufferSpot ∧ s.bufferSpot.toNat < s.ofBuffer.length then
    let s1 := { s with ofBuffer := s.ofBuffer.set s.bufferSpot.toNat gz,
                       bufferSpot := s.bufferSpot + 1 }
    some (if s1.bufferSpot ≥ 1500 then { s1 with bufferSpot := 0 } else s1)
  else none

/-- The loop of `roboBrain::setOffSet` from counter `i` on, with `fuel` bounding the number
of rounds; it works on the members `offSet` and `bufferSpot` only. -/
def setOffSetLoop {β : Type} [Add β] [IntCast β] (bufferMax bufferDiscard : Int) :
    Nat → Int → β → Int → β × Int
  | 0, _, offSet, bufferSpot => (offSet, bufferSpot)
  | fuel + 1, i, offSet, bufferSpot =>
    if i < bufferMax then
      let offSet1 := if i > bufferDiscard then offSet + ((bufferSpot : Int) : β) else offSet
      let bufferSpot1 := bufferSpot - 1
      let bufferSpot2 := if bufferSpot1 < 0 then bufferMax else bufferSpot1
      setOffSetLoop bufferMax bufferDiscard fuel (i + 1) offSet1 bufferSpot2
    else (offSet, bufferSpot)

/-- The function `roboBrain::setOffSet` on the members it touches.  The type `β` of `offSet`
is declared in the header: `/` is integer division at `β := ℤ` and exact
division at a field.  (At `β := ℤ` a negative total is rounded down here and
toward zero in C; totals that start from 0 are not negative.) -/
def setOffSet {β : Type} [Add β] [Div β] [IntCast β] (bufferMax bufferDiscard : Int)
    (offSet : β) (bufferSpot : Int) : β × Int :=
  let r := setOffSetLoop bufferMax bufferDiscard bufferMax.toNat 0 offSet bufferSpot
  (r.1 / (((bufferMax - bufferDiscard : Int)) : β), r.2)

/-! ## Guidance -/

/-- The wrap of the heading error in `roboBrain::guide` (the two `if`s after
`headingChange = desiredHeading - heading`). -/
def wrapHeading {α : Type} [LinearOrderedField α] (headingChange : α) : α :=
  if headingChange > 180 then headingChange - 360
  else if headingChange < -180 then headingChange + 360
  else headingChange

/-- The function `roboBrain::guide`.  `bearing` is the method `waypoint::heading()`, `gz` and
`button` are what `interface.readGyro` and `interface.button()` return in this
call. -/
def guide {α : Type} [LinearOrderedField α] (cfg : Config α) (bearing : waypoint α → α)
    (gz : Int) (button : Bool) (s : RoboBrain α) : Option (RoboBrain α) :=
  if s.nowpoint = 0 then
    match fillBuffer gz s with
    | none => none
    | some s1 =>
      if button then
        let r := setOffSet cfg.bufferMax cfg.bufferDiscard s1.offSet s1.bufferSpot
        some { s1 with nowpoint := 1, offSet := r.1, bufferSpot := r.2 }
      else some s1
  else
    match idx (waypoints α) s.nowpoint, idx (waypoints α) (s.nowpoint - 1) with
    | some w, some wPrev =>
      let s1 := if dot (w.sub wPrev) (w.sub s.pos) < 0
                then { s with nowpoint := s.nowpoint + 1 } else s
      if s1.nowpoint ≥ wpcount then some { s1 with headingChange := 400 }
      else
        match idx (waypoints α) s1.nowpoint with
        | none => none
        | some w1 =>
          let desired := bearing (w1.sub s1.pos)
          some { s1 with desiredHeading := desired,
                         headingChange := wrapHeading (desired - s1.heading) }
    | _, _ => none

/-! ## Control and dead reckoning -/

/-- The function `roboBrain::control`: the values written to `interface.throttle` and
`interface.steering`, or `none` when nothing is written. -/
def control {α : Type} [LinearOrderedField α] (s : RoboBrain α) : Option (α × α) :=
  if s.nowpoint = 0 then none
  else if s.headingChange ≥ 300 then some (150, 150)
  else some (140, s.headingChange * 50 / 180 + 150)

/-- The functions `roboBrain::updateTime` and `roboBrain::navigateCompass`, with `now` what
`interface.time()` returns and `gz` the sample `g[2]`. -/
def navigateCompass {α : Type} [LinearOrderedField α] (now : α) (gz : Int)
    (s : RoboBrain α) : RoboBrain α :=
  let dt := now - s.epochTime
  let yawRate := ((gz : α) - s.offSet) / 32767 * 250
  { s with epochTime := now, dt := dt, zDN := gz, yawRate := yawRate,
           heading := s.heading - yawRate * dt }

/-- The function `roboBrain::navigateOdometer`, with `ts`, `count` and `dtOdo` what
`interface.readOdometer` stores; `wheelCount` is a `uint32_t`.  `sinf` and `cosf`
are `sin` and `cos` of the C library. -/
def navigateOdometer {α : Type} [LinearOrderedField α] (cfg : Config α) (sinf cosf : α → α)
    (ts : α) (count : Nat) (dtOdo : α) (s : RoboBrain α) : RoboBrain α :=
  let oldWheelCount := s.wheelCount
  let wheelCount : Nat := count % 2 ^ 32
  let newWheelCount : Nat := (wheelCount + 2 ^ 32 - oldWheelCount % 2 ^ 32) % 2 ^ 32
  let dirE := sinf (s.heading * cfg.PI / 180)
  let dirN := cosf (s.heading * cfg.PI / 180)
  let d := cfg.wheelRadius * (cfg.PI / 2) * (newWheelCount : α)
  { s with timeStamp := ts, wheelCount := wheelCount, dtOdometer := dtOdo,
           pos := ⟨s.pos.easting + dirE * d, s.pos.northing + dirN * d⟩ }

/-! ## The GPS fix processor -/

/-- The bytes `,` and `*`, as tested on lines 139-140 (`if(c) if(c == ',' || c == '*')`). -/
def isDelim (c : Nat) : Bool := c != 0 && (c == 44 || c == 42)

/-- The literal `"$GPRMC"` with its terminator. -/
def GPRMC : List Nat := [36, 71, 80, 82, 77, 67, 0]

/-- The test `strncmp(a, b, n) == 0` of the C library: at most `n` bytes are compared and the
comparison stops behind a common NUL.  A string that ends before that (the
array is over) counts as different. -/
def strncmpEq : Nat → List Nat → List Nat → Bool
  | 0, _, _ => true
  | n + 1, x :: a, y :: b => if x ≠ y then false else if x = 0 then true else strncmpEq n a b
  | _ + 1, _, _ => false

/-- The C string that starts at offset `off` of the array `buf`: the bytes up to the first NUL. -/
def cstr (buf : List Nat) (off : Nat) : List Nat := (buf.drop off).takeWhile (fun c => c != 0)

/-- The C string at `buf + off`, `none` when the pointer is outside the array. -/
def cstrAt (buf : List Nat) (off : Nat) : Option (List Nat) :=
  if off < buf.length then some (cstr buf off) else none

/-- The loop `checksum ^= nmeaReceived[i]` on a `char` accumulator, over the bytes `bs`. -/
def xorBytes (bs : List Nat) : Nat := bs.foldl (fun acc b => (acc ^^^ b) % 256) 0

/-- The value of a `char` with bit pattern `c` after integer promotion. -/
def charToInt {α : Type} (cfg : Config α) (c : Nat) : Int :=
  if cfg.charSigned && decide (128 ≤ c) then (c : Int) - 256 else (c : Int)

/-- The predicate `isspace` of the C locale. -/
def isSpace (c : Nat) : Bool := c == 32 || (decide (9 ≤ c) && decide (c ≤ 13))

/-- The value of a hexadecimal digit. -/
def hexVal (c : Nat) : Option Nat :=
  if 48 ≤ c ∧ c ≤ 57 then some (c - 48)
  else if 65 ≤ c ∧ c ≤ 70 then some (c - 55)
  else if 97 ≤ c ∧ c ≤ 102 then some (c - 87)
  else none

/-- The digits loop of `strtol`: the longest run of hexadecimal digits. -/
def hexDigits : Nat → List Nat → Nat
  | acc, [] => acc
  | acc, c :: cs =>
    match hexVal c with
    | some d => hexDigits (16 * acc + d) cs
    | none => acc

/-- The call `strtol(s, NULL, 16)` of the C library on the C string `s`: white space, an optional
sign, an optional `0x`, then hexadecimal digits.  The strings it is called on
here have at most two bytes, so the clamp to `LONG_MAX` is left out. -/
def strtol16 (s : List Nat) : Int :=
  let s1 := s.dropWhile isSpace
  let neg := s1.head? == some 45
  let s2 := if s1.head? == some 45 || s1.head? == some 43 then s1.tail else s1
  let s3 := match s2 with
    | 48 :: x :: d :: t => if (x == 120 || x == 88) && (hexVal d).isSome then d :: t else s2
    | _ => s2
  let v : Int := (hexDigits 0 s3 : Nat)
  if neg then -v else v

/-- Conversion of a `double` to `int`: the fraction is discarded.  The range of `int` is not
modelled: the result is exact also beyond `2^31`, where the C conversion is
undefined. -/
def truncInt {α : Type} [LinearOrderedField α] [FloorRing α] (x : α) : Int :=
  if 0 ≤ x then ⌊x⌋ else ⌈x⌉

/-- Lines 177-179 and 185-187: an NMEA coordinate `DDMM.MMMM` to decimal degrees
(`degrees = floor(x)/100; minutes = x - degrees*100; degrees + minutes/60`). -/
def toDecimalDegrees {α : Type} [LinearOrderedField α] [FloorRing α] (x : α) : α :=
  let degrees : Int := truncInt (((⌊x⌋ : Int) : α) / 100)
  let minutes : α := x - ((degrees * 100 : Int) : α)
  (degrees : α) + minutes / 60

/-- The loop of lines 167-170: the delimiters among the first `n` bytes become NUL. -/
def zeroDelims (n : Nat) (buf : List Nat) : List Nat :=
  (buf.take n).map (fun c => if c == 44 || c == 42 then 0 else c) ++ buf.drop n

/-- Lines 166-203, the branch taken when the checksum matches: the fields are cut out of the
sentence and the fix is applied.  `atof` and `cosf` are `atof` and `cos` of the C
library. -/
def parseRMC {α : Type} [LinearOrderedField α] [FloorRing α] (cfg : Config α)
    (atof : List Nat → α) (cosf : α → α) (s : RoboBrain α) : Option (RoboBrain α) :=
  if s.charsReceived ≤ s.nmeaReceived.length then
    let buf := zeroDelims s.charsReceived s.nmeaReceived
    match s.partitions[cfg.latSpot]?, s.partitions[cfg.nsSpot]?, s.partitions[cfg.longSpot]?,
          s.partitions[cfg.ewSpot]?, s.partitions[cfg.headingSpot]? with
    | some pLat, some pNs, some pLong, some pEw, some pHead =>
      match cstrAt buf (pLat + 1), buf[pNs + 1]?, cstrAt buf (pLong + 1), buf[pEw + 1]?,
            cstrAt buf (pHead + 1) with
      | some latStr, some ns, some longStr, some ew, some headStr =>
        let latdd0 := toDecimalDegrees (atof latStr)
        let latdd := if ns = 83 then -latdd0 else latdd0
        let longdd0 := toDecimalDegrees (atof longStr)
        let longdd := if ew = 87 then -longdd0 else longdd0
        let s1 := { s with nmeaReceived := buf, charsReceived := 0, partCount := 0,
                           heading := atof headStr }
        if s1.lat0 > (90 : α) ∧ s1.long0 > (180 : α) then
          some { s1 with lat0 := latdd, long0 := longdd }
        else
          some { s1 with pos := ⟨(longdd - s1.long0) * cfg.re * cosf s1.lat0 / 180,
                                 (latdd - s1.lat0) * cfg.re * cfg.PI / 180⟩ }
      | _, _, _, _, _ => none
    | _, _, _, _, _ => none
  else none

/-- Lines 138-144: the byte is stored and, when it is a delimiter, its offset is recorded. -/
def storeChar {α : Type} (s : RoboBrain α) (ch : Nat) : Option (RoboBrain α) :=
  if s.charsReceived < s.nmeaReceived.length then
    let s1 := { s with nmeaReceived := s.nmeaReceived.set s.charsReceived ch }
    if isDelim ch then
      if s1.partCount < s1.partitions.length then
        some { s1 with partitions := s1.partitions.set s1.partCount s1.charsReceived,
                       partCount := s1.partCount + 1,
                       charsReceived := s1.charsReceived + 1 }
      else none
    else some { s1 with charsReceived := s1.charsReceived + 1 }
  else none

/-- The condition of line 145: the type field is complete and is not `$GPRMC`. -/
def wrongType {α : Type} (cfg : Config α) (s : RoboBrain α) : Option Bool :=
  if s.partCount = cfg.timeSpot + 1 then
    match s.partitions[cfg.timeSpot]? with
    | none => none
    | some p => some (decide (s.charsReceived = p + 1) && !strncmpEq 6 s.nmeaReceived GPRMC)
  else some false

/-- The condition of line 152: the byte behind the status delimiter is `V`. -/
def voidStatus {α : Type} (cfg : Config α) (s : RoboBrain α) : Option Bool :=
  if s.partCount = cfg.statusSpot + 1 then
    match s.partitions[cfg.statusSpot]? with
    | none => none
    | some p =>
      match s.nmeaReceived[p + 1]? with
      | none => none
      | some c => some (c == 86)
  else some false

/-- The condition of line 158: two bytes have been received behind the checksum delimiter. -/
def sentenceDone {α : Type} (cfg : Config α) (s : RoboBrain α) : Option Bool :=
  if s.partCount = cfg.checksumSpot + 1 then
    match s.partitions[cfg.checksumSpot]? with
    | none => none
    | some p => some (decide (s.charsReceived = p + 3))
  else some false

/-- The assignments `sentenceStart = false; charsReceived = 0; partCount = 0` of the two discards. -/
def discard {α : Type} (s : RoboBrain α) : RoboBrain α :=
  { s with sentenceStart := false, charsReceived := 0, partCount := 0 }

/-- Lines 159-208: the checksum is validated and the sentence parsed or thrown away.  The
flag of the result says whether the loop is left by `break`. -/
def checkSentence {α : Type} [LinearOrderedField α] [FloorRing α] (cfg : Config α)
    (atof : List Nat → α) (cosf : α → α) (s : RoboBrain α) : Option (RoboBrain α × Bool) :=
  match s.partitions[cfg.checksumSpot]? with
  | none => none
  | some p =>
    if p + 3 < s.nmeaReceived.length then
      let checksum := xorBytes ((s.nmeaReceived.take p).drop 1)
      let s1 := { s with sentenceStart := false, nmeaReceived := s.nmeaReceived.set (p + 3) 0 }
      if charToInt cfg checksum = strtol16 (cstr s1.nmeaReceived (p + 1)) then
        (parseRMC cfg atof cosf s1).map (fun r => (r, true))
      else some ({ s1 with charsReceived := 0, partCount := 0 }, false)
    else none

/-- Lines 145-209: the three tests made after a byte has been stored.  The flag of the result
says whether the loop is left by `break`. -/
def examine {α : Type} [LinearOrderedField α] [FloorRing α] (cfg : Config α)
    (atof : List Nat → α) (cosf : α → α) (s1 : RoboBrain α) : Option (RoboBrain α × Bool) :=
  match wrongType cfg s1 with
  | none => none
  | some true => some (discard s1, false)
  | some false =>
    match voidStatus cfg s1 with
    | none => none
    | some true => some (discard s1, false)
    | some false =>
      match sentenceDone cfg s1 with
      | none => none
      | some false => some (s1, false)
      | some true => checkSentence cfg atof cosf s1

/-- One round of the loop of `roboBrain::navigateGPS` (lines 134-209) on the byte `ch` that
`interface.readChar()` returns.  The flag says whether the loop is left by `break`. -/
def navigateGPSChar {α : Type} [LinearOrderedField α] [FloorRing α] (cfg : Config α)
    (atof : List Nat → α) (cosf : α → α) (s : RoboBrain α) (ch : Nat) :
    Option (RoboBrain α × Bool) :=
  let s0 := if ch = 36 then { s with sentenceStart := true } else s
  if s0.sentenceStart = false then some (s0, false)
  else
    match storeChar s0 ch with
    | none => none
    | some s1 => examine cfg atof cosf s1

/-- The function `roboBrain::navigateGPS` on the bytes that are available in this call: the
state it leaves and the bytes it has not read. -/
def navigateGPS {α : Type} [LinearOrderedField α] [FloorRing α] (cfg : Config α)
    (atof : List Nat → α) (cosf : α → α) : RoboBrain α → List Nat → Option (RoboBrain α × List Nat)
  | s, [] => some (s, [])
  | s, ch :: rest =>
    match navigateGPSChar cfg atof cosf s ch with
    | none => none
    | some (s1, true) => some (s1, rest)
    | some (s1, false) => navigateGPS cfg atof cosf s1 rest

/-- The bytes `bs` fed to the parser one after the other, over as many calls of
`navigateGPS` as it takes: the loop body runs once per byte. -/
def feed {α : Type} [LinearOrderedField α] [FloorRing α] (cfg : Config α)
    (atof : List Nat → α) (cosf : α → α) : RoboBrain α → List Nat → Option (RoboBrain α)
  | s, [] => some s
  | s, ch :: rest =>
    match navigateGPSChar cfg atof cosf s ch with
    | none => none
    | some (s1, _) => feed cfg atof cosf s1 rest

/-! ## Construction and sample data -/

/-- The constructor `roboBrain::roboBrain(h, e, n, ...)`.  Its initialiser list sets `heading`,
`pos`, `headingChange`, `desiredHeading`, `partCount`, `charsReceived`,
`sentenceStart`, `wheelCount` and `bufferSpot`; what the header gives the other
members is taken as arguments (`nmeaCap`, `partCap` and `ofCap` are the
capacities of the three arrays, which start zeroed). -/
def mkBrain {α : Type} [Zero α] (h e n : α) (nowpoint : Int) (lat0 long0 offSet : α)
    (nmeaCap partCap ofCap : Nat) : RoboBrain α :=
  { heading := h, pos := ⟨e, n⟩, headingChange := 0, desiredHeading := 0,
    nowpoint := nowpoint, partCount := 0, charsReceived := 0, sentenceStart := false,
    wheelCount := 0, bufferSpot := 0,
    nmeaReceived := List.replicate nmeaCap 0, partitions := List.replicate partCap 0,
    ofBuffer := List.replicate ofCap 0, offSet := offSet, lat0 := lat0, long0 := long0,
    epochTime := 0, dt := 0, yawRate := 0, zDN := 0, timeStamp := 0, dtOdometer := 0 }

/-- The value of a run of decimal digits. -/
def decValue (ds : List Nat) : Nat := ds.foldl (fun acc d => 10 * acc + (d - 48)) 0

/-- The predicate `isdigit`. -/
def isDigit (c : Nat) : Bool := decide (48 ≤ c) && decide (c ≤ 57)

/-- What `atof` of the C library returns on a string made of white space, a sign, digits, a point
and digits (the part of its input language that NMEA fields use; no exponent). -/
def atofDec {α : Type} [Field α] (s : List Nat) : α :=
  let s1 := s.dropWhile isSpace
  let neg := s1.head? == some 45
  let s2 := if s1.head? == some 45 || s1.head? == some 43 then s1.tail else s1
  let ip := s2.takeWhile isDigit
  let fp := match s2.dropWhile isDigit with
    | 46 :: t => t.takeWhile isDigit
    | _ => []
  let v : α := (decValue ip : α) + (decValue fp : α) / 10 ^ fp.length
  if neg then -v else v

/-- The layout of an RMC sentence `$GPRMC,time,status,lat,N,lon,E,speed,course,date,var,E*hh`,
with sample values for the other constants. -/
def rmcConfig (α : Type) [Field α] : Config α :=
  { timeSpot := 0, statusSpot := 1, latSpot := 2, nsSpot := 3, longSpot := 4, ewSpot := 5,
    headingSpot := 7, checksumSpot := 11, bufferMax := 1500, bufferDiscard := 300,
    re := 6378137, PI := 355 / 113, wheelRadius := 1 / 10, charSigned := true }

/-- The bytes of a string. -/
def bytes (s : String) : List Nat := s.toList.map Char.toNat

/-- A started navigator at waypoint 1 whose heading is 180 while the bearing is 0. -/
def startedBrain : RoboBrain ℚ := mkBrain 180 0 0 1 100 200 0 0 0 0

/-- A navigator on its way to the last waypoint (index 10), already behind the line through it. -/
def finishingBrain : RoboBrain ℚ := mkBrain 0 0 (-10) 10 100 200 0 0 0 0

/-- The calls of `guide` before the button is pressed: `n` calls with the gyro sample `gz` each
time and `interface.button()` false. -/
def guideIdle {α : Type} [LinearOrderedField α] (cfg : Config α) (bearing : waypoint α → α)
    (gz : Int) : Nat → RoboBrain α → Option (RoboBrain α)
  | 0, s => some s
  | n + 1, s =>
    match guide cfg bearing gz false s with
    | none => none
    | some s1 => guideIdle cfg bearing gz n s1

/-- A navigator that has not started, with a calibration buffer of 1500 samples and `offSet` 0. -/
def calibBrain : RoboBrain ℚ := mkBrain 0 0 0 0 100 200 0 0 0 1500

/-! ## Sentences, as the parser sees them -/

/-- The offsets of the delimiters `,` and `*` in `bs`, the first byte having offset `off`. -/
def delimOffsets : Nat → List Nat → List Nat
  | _, [] => []
  | off, c :: cs =>
    if isDelim c then off :: delimOffsets (off + 1) cs else delimOffsets (off + 1) cs

/-- The state of a parser that started from `s0` and has stored the bytes `fed` of a sentence
without discarding it: the bytes lie at the start of `nmeaReceived`, the offsets
of their delimiters at the start of `partitions`, and what lies behind them in
the two arrays is what `s0` had there. -/
def accumulated {α : Type} (s0 : RoboBrain α) (fed : List Nat) : RoboBrain α :=
  { s0 with sentenceStart := true,
            charsReceived := fed.length,
            partCount := (delimOffsets 0 fed).length,
            nmeaReceived := fed ++ s0.nmeaReceived.drop fed.length,
            partitions := delimOffsets 0 fed ++ s0.partitions.drop (delimOffsets 0 fed).length }

/-- The parser of `s` is idle with empty counters and `s` has the position, heading and origin
of `s0`. -/
def IdleFrame {α : Type} (s0 s : RoboBrain α) : Prop :=
  s.sentenceStart = false ∧ s.charsReceived = 0 ∧ s.partCount = 0 ∧
  s.pos = s0.pos ∧ s.heading = s0.heading ∧ s.lat0 = s0.lat0 ∧ s.long0 = s0.long0

/-- A constructed navigator with an 82-byte sentence buffer, 20 partitions and the origin unset
(`lat0 = 100`, `long0 = 200`). -/
def gpsBrain : RoboBrain ℚ := mkBrain 0 0 0 1 100 200 0 82 20 0

/-- The bytes `GPRMC,1` between the `$` and the status delimiter of a sample sentence. -/
def voidPre : List Nat := bytes "GPRMC,1"

/-- The bytes behind the status `V` of a sample sentence. -/
def voidRest : List Nat := bytes ",4000.00,N,10500.00,W,0,90.5,1,0,E*4F"

/-- Field number `k` of the sentence `S`: the bytes behind its delimiter number `k + 1`, up to the
next delimiter (or NUL, or the end of the sentence). -/
def field (S : List Nat) (k : Nat) : List Nat :=
  match (delimOffsets 0 S)[k]? with
  | some p => (S.drop (p + 1)).takeWhile (fun c => c != 0 && !(c == 44 || c == 42))
  | none => []

/-- The byte behind delimiter number `k + 1` of the sentence `S`. -/
def fieldChar (S : List Nat) (k : Nat) : Option Nat :=
  match (delimOffsets 0 S)[k]? with
  | some p => S[p + 1]?
  | none => none

/-- The latitude of the fix of sentence `S` in decimal degrees, south negative. -/
def fixLat {α : Type} [LinearOrderedField α] [FloorRing α] (cfg : Config α)
    (atof : List Nat → α) (S : List Nat) : α :=
  if fieldChar S cfg.nsSpot = some 83 then -toDecimalDegrees (atof (field S cfg.latSpot))
  else toDecimalDegrees (atof (field S cfg.latSpot))

/-- The longitude of the fix of sentence `S` in decimal degrees, west negative. -/
def fixLong {α : Type} [LinearOrderedField α] [FloorRing α] (cfg : Config α)
    (atof : List Nat → α) (S : List Nat) : α :=
  if fieldChar S cfg.ewSpot = some 87 then -toDecimalDegrees (atof (field S cfg.longSpot))
  else toDecimalDegrees (atof (field S cfg.longSpot))

/-- The sentence `$ body * h1 h2`. -/
def sentence (body : List Nat) (h1 h2 : Nat) : List Nat := (36 :: body) ++ [42, h1, h2]

/-- A well-formed RMC sentence `$GPRMC,...*HH` with a valid fix and a correct checksum: the body
starts with `GPRMC,`, consists of 7-bit ASCII and holds `checksumSpot`
delimiters (so that `*` is delimiter number `checksumSpot + 1`), the byte behind
the status delimiter is `A`, and `h1 h2` are hexadecimal digits whose value is
the exclusive-or of the bytes of the body. -/
structure WellFormed {α : Type} (cfg : Config α) (body : List Nat) (h1 h2 : Nat) : Prop where
  type : [71, 80, 82, 77, 67, 44] <+: body
  count : (delimOffsets 0 (36 :: body)).length = cfg.checksumSpot
  ascii : ∀ b ∈ body, b < 128
  hex : ∃ a b, hexVal h1 = some a ∧ hexVal h2 = some b ∧ 16 * a + b = xorBytes body
  status : fieldChar (sentence body h1 h2) cfg.statusSpot = some 65

/-- The fields that `navigateGPS` reads lie before the checksum. -/
def FieldsBeforeChecksum {α : Type} (cfg : Config α) : Prop :=
  cfg.latSpot ≤ cfg.checksumSpot ∧ cfg.nsSpot ≤ cfg.checksumSpot ∧
  cfg.longSpot ≤ cfg.checksumSpot ∧ cfg.ewSpot ≤ cfg.checksumSpot ∧
  cfg.headingSpot ≤ cfg.checksumSpot

/-- The state in which the fields of the complete sentence `S` are parsed: `S` is stored, followed
by the NUL of line 164, and `sentenceStart` is false. -/
def stored {α : Type} (s0 : RoboBrain α) (S : List Nat) : RoboBrain α :=
  { accumulated s0 S with
      sentenceStart := false,
      nmeaReceived := (S ++ [0]) ++ s0.nmeaReceived.drop (S ++ [0]).length }

/-- The fix of sentence `S` has been applied to `s0`, giving `s1`: the parser is idle with empty
counters, the heading is the one of the sentence, and either the origin was
unset and is now the fix while the position is untouched, or the origin is
untouched and the position is the one that lines 200-201 compute. -/
def FixApplied {α : Type} [LinearOrderedField α] [FloorRing α] (cfg : Config α)
    (atof : List Nat → α) (cosf : α → α) (s0 : RoboBrain α) (S : List Nat)
    (s1 : RoboBrain α) : Prop :=
  s1.sentenceStart = false ∧ s1.charsReceived = 0 ∧ s1.partCount = 0 ∧
  s1.heading = atof (field S cfg.headingSpot) ∧
  (s0.lat0 > 90 ∧ s0.long0 > 180 →
    s1.lat0 = fixLat cfg atof S ∧ s1.long0 = fixLong cfg atof S ∧ s1.pos = s0.pos) ∧
  (¬ (s0.lat0 > 90 ∧ s0.long0 > 180) →
    s1.lat0 = s0.lat0 ∧ s1.long0 = s0.long0 ∧
    s1.pos = ⟨(fixLong cfg atof S - s0.long0) * cfg.re * cosf s0.lat0 / 180,
              (fixLat cfg atof S - s0.lat0) * cfg.re * cfg.PI / 180⟩)

/-- The body of the sample sentence `$GPRMC,1,A,4000.00,N,10500.00,W,0,90.5,1,0,E*58`:
latitude 40 N, longitude 105 W, course 90.5. -/
def sampleBody : List Nat := bytes "GPRMC,1,A,4000.00,N,10500.00,W,0,90.5,1,0,E"

/-- The body of `$GPRMC,1,A,9100,N,18100,E,0,90,1,0,E*51`: latitude field 9100, longitude field
18100. -/
def farBody : List Nat := bytes "GPRMC,1,A,9100,N,18100,E,0,90,1,0,E"

/-- The body of `$GPRMC,1,A,4000,N,10500,W,0,90,1,0,E*43`: latitude 40 N, longitude 105 W. -/
def nearBody : List Nat := bytes "GPRMC,1,A,4000,N,10500,W,0,90,1,0,E"

/-- The body of `$GPRMC,1,A,0000,N,00100,E,0,90,1,0,E*50`: latitude 0, longitude 1 E. -/
def eastBody : List Nat := bytes "GPRMC,1,A,0000,N,00100,E,0,90,1,0,E"

/-- A constructed navigator whose origin is set to 40 N, 105 W. -/
def setBrain : RoboBrain ℚ := mkBrain 0 0 0 1 40 (-105) 0 82 20 0

/-! ## Reference behaviour and runs, for the claims on guidance and control -/

/-- The steering controller as the specification words it: nothing is written before navigation
has started; when the heading error signals course completion (300 or more) the
neutral value 150 goes to throttle and steering; otherwise the cruise throttle
140 and the steering `150 + headingChange * 50 / 180`. -/
def controlRef {α : Type} [LinearOrderedField α] (s : RoboBrain α) : Option (α × α) :=
  if s.nowpoint = 0 then none
  else if 300 ≤ s.headingChange then some (150, 150)
  else some (140, 150 + s.headingChange * 50 / 180)

/-- A sequence of calls of `guide`, one for each pair (gyro sample, button) of `inputs`. -/
def guideRun {α : Type} [LinearOrderedField α] (cfg : Config α) (bearing : waypoint α → α) :
    List (Int × Bool) → RoboBrain α → Option (RoboBrain α)
  | [], s => some s
  | (gz, button) :: rest, s =>
    match guide cfg bearing gz button s with
    | none => none
    | some s1 => guideRun cfg bearing rest s1

/-- A started navigator at waypoint 1 whose heading has wound down to -1000 degrees. -/
def woundBrain : RoboBrain ℚ := mkBrain (-1000) 0 0 1 100 200 0 0 0 0

/-- The body of `$GPRMC,1,A,4030,N,10530,W,0,90,1,0,E*43`: latitude 40 degrees 30 minutes N,
longitude 105 degrees 30 minutes W. -/
def halfBody : List Nat := bytes "GPRMC,1,A,4030,N,10530,W,0,90,1,0,E"

/-- The sentence `$GPRMC,1,V,4000,N,10500,W,0,90,1,0,E*54`, whose status is `V`. -/
def voidSentence : List Nat := sentence (bytes "GPRMC,1,V,4000,N,10500,W,0,90,1,0,E") 53 52

/-- The state of `gpsBrain` after `voidSentence`: the sentence was thrown away when its `V` had
been stored, so the buffer still holds `$GPRMC,1,V` and the partitions 6 and 8. -/
def afterVoid : RoboBrain ℚ := discard (accumulated gpsBrain (bytes "$GPRMC,1,V"))

theorem wrapHeading_range {α : Type} [LinearOrderedField α] (d : α)
    (hlo : -540 ≤ d) (hhi : d ≤ 540) : -180 ≤ wrapHeading d ∧ wrapHeading d ≤ 180 := by
  unfold wrapHeading
  split_ifs with h1 h2
  · constructor <;> linarith
  · constructor <;> linarith
  · push_neg at h1 h2
    exact ⟨h2, h1⟩

theorem idx_waypoints_some {α : Type} [Field α] (i : Int) (h0 : 0 ≤ i) (h1 : i < wpcount) :
    ∃ w, idx (waypoints α) i = some w := by
  unfold wpcount at h1
  have h : i = 0 ∨ i = 1 ∨ i = 2 ∨ i = 3 ∨ i = 4 ∨ i = 5 ∨ i = 6 ∨ i = 7 ∨ i = 8 ∨ i = 9
      ∨ i = 10 := by omega
  rcases h with h | h | h | h | h | h | h | h | h | h | h <;> subst h <;>
    simp [idx, waypoints]

theorem idx_waypoints_none {α : Type} [Field α] (i : Int) (h1 : wpcount ≤ i) :
    idx (waypoints α) i = none := by
  unfold wpcount at h1
  have h0 : 0 ≤ i := by omega
  have : 11 ≤ i.toNat := by omega
  simp [idx, h0, waypoints]
  omega

/-- C1 (as amended).  While a waypoint is active (`1 ≤ nowpoint < wpcount` before the call),
`guide` returns; when the index it leaves is still below `wpcount`, the stored
`headingChange` is the wrapped difference `desiredHeading - heading`, and for a
raw difference between -540 and 540 it lies in the closed interval
`[-180, 180]`.  A raw difference of -190 gives 170 and one of 190 gives -170. -/
theorem guide_headingChange_range {α : Type} [LinearOrderedField α] (cfg : Config α)
    (bearing : waypoint α → α) (gz : Int) (button : Bool) (s : RoboBrain α)
    (h1 : 1 ≤ s.nowpoint) (h2 : s.nowpoint < wpcount) :
    (∃ s1, guide cfg bearing gz button s = some s1 ∧
      (s1.nowpoint < wpcount →
        s1.headingChange = wrapHeading (s1.desiredHeading - s.heading) ∧
        (-540 ≤ s1.desiredHeading - s.heading → s1.desiredHeading - s.heading ≤ 540 →
          -180 ≤ s1.headingChange ∧ s1.headingChange ≤ 180))) ∧
    wrapHeading (-190 : α) = 170 ∧ wrapHeading (190 : α) = -170 := by
  refine ⟨?_, ?_, ?_⟩
  · obtain ⟨w, hw⟩ := idx_waypoints_some (α := α) s.nowpoint (by omega) h2
    obtain ⟨wp, hwp⟩ := idx_waypoints_some (α := α) (s.nowpoint - 1) (by omega) (by omega)
    have hne : s.nowpoint ≠ 0 := by omega
    unfold guide
    simp only [hne, if_false, hw, hwp]
    by_cases hd : dot (w.sub wp) (w.sub s.pos) < 0
    · simp only [hd, if_true]
      by_cases hge : s.nowpoint + 1 ≥ wpcount
      · simp only [hge, if_true]
        exact ⟨_, rfl, fun h => absurd h (by simpa using hge)⟩
      · simp only [hge, if_false]
        obtain ⟨w1, hw1⟩ := idx_waypoints_some (α := α) (s.nowpoint + 1) (by omega)
          (by omega)
        simp only [hw1]
        refine ⟨_, rfl, fun _ => ⟨rfl, fun a b => wrapHeading_range _ a b⟩⟩
    · simp only [hd, if_false]
      have hge : ¬ s.nowpoint ≥ wpcount := by omega
      simp only [hge, if_false, hw]
      refine ⟨_, rfl, fun _ => ⟨rfl, fun a b => wrapHeading_range _ a b⟩⟩
  · unfold wrapHeading; norm_num
  · unfold wrapHeading; norm_num

theorem guide_headingChange_range_witness :
    (∃ s1, guide (rmcConfig ℚ) (fun _ => 0) 0 false startedBrain = some s1 ∧
      (s1.nowpoint < wpcount →
        s1.headingChange = wrapHeading (s1.desiredHeading - startedBrain.heading) ∧
        (-540 ≤ s1.desiredHeading - startedBrain.heading →
          s1.desiredHeading - startedBrain.heading ≤ 540 →
          -180 ≤ s1.headingChange ∧ s1.headingChange ≤ 180))) ∧
    wrapHeading (-190 : ℚ) = 170 ∧ wrapHeading (190 : ℚ) = -170 :=
  guide_headingChange_range (rmcConfig ℚ) (fun _ => 0) 0 false startedBrain
    (by decide) (by decide)

/-- C1 (as stated) fails: with desired heading 0 and current heading 180 the raw difference
is -180, `guide` stores -180, and -180 is not in `(-180, 180]`. -/
theorem guide_headingChange_counterexample :
    (guide (rmcConfig ℚ) (fun _ => 0) 0 false startedBrain).map
        (fun s1 => (s1.nowpoint, s1.headingChange)) = some (1, -180) ∧
      ¬ (-180 < (-180 : ℚ) ∧ (-180 : ℚ) ≤ 180) := by
  constructor
  · simp [guide, startedBrain, mkBrain, idx, waypoints, dot, waypoint.sub, wrapHeading, wpcount]
    norm_num
  · norm_num

/-! ## Waypoint index (guide) -/

/-- C2 (fails on the code).  From waypoint index 10 with the vehicle behind the last line,
`guide` raises the index to `wpcount = 11` and stores the sentinel 400; the next
call of `guide` subscripts `waypoints[11]`, outside the table, before it tests
`nowpoint >= wpcount`: in the model the call has no defined result. -/
theorem guide_reads_past_last_waypoint (bearing : waypoint ℚ → ℚ) (gz : Int) (button : Bool) :
    ∃ s1, guide (rmcConfig ℚ) bearing gz button finishingBrain = some s1 ∧
      s1.nowpoint = wpcount ∧ s1.headingChange = 400 ∧
      idx (waypoints ℚ) s1.nowpoint = none ∧
      guide (rmcConfig ℚ) bearing gz button s1 = none := by
  refine ⟨{ finishingBrain with nowpoint := 11, headingChange := 400 }, ?_, rfl, rfl, ?_, ?_⟩
  · simp [guide, finishingBrain, mkBrain, idx, waypoints, dot, waypoint.sub, wpcount]
    norm_num
  · exact idx_waypoints_none _ (le_refl _)
  · have h : idx (waypoints ℚ) (11 : Int) = none := idx_waypoints_none _ (le_refl _)
    simp [guide, h]

/-! ## Gyro bias calibration -/

theorem setOffSetLoop_int (M D : Int) (hDM : D < M) (fuel : Nat) :
    ∀ (i o : Int), i = M - fuel → 1 ≤ i →
      ∃ g : Int, setOffSetLoop M D fuel i o (M + 1 - i) = (o + g, 1) ∧
        2 * g = (M + 1 - max i (D + 1)) * (M + 2 - max i (D + 1)) - 2 := by
  induction fuel with
  | zero =>
    intro i o hi _
    refine ⟨0, ?_, ?_⟩
    · simp at hi
      subst hi
      simp [setOffSetLoop]
    · simp at hi
      have : max i (D + 1) = M := by rw [hi]; exact max_eq_left (by omega)
      rw [this]; ring
  | succ n ih =>
    intro i o hi h1
    have hlt : i < M := by push_cast at hi; omega
    obtain ⟨g, hg, hg2⟩ := ih (i + 1) (if i > D then o + (M + 1 - i) else o)
      (by push_cast at hi; omega) (by omega)
    have hb : ¬ (M + 1 - i - 1 < 0) := by omega
    have hb3 : ¬ (M + 1 - (i + 1) < 0) := by omega
    have hb2 : M + 1 - i - 1 = M + 1 - (i + 1) := by ring
    by_cases hiD : i > D
    · refine ⟨(M + 1 - i) + g, ?_, ?_⟩
      · simp only [setOffSetLoop, hlt, if_true, hb, if_false, hb2, Int.cast_id]
        simp only [hiD, if_true] at hg ⊢
        rw [if_neg hb3, hg, add_assoc]
      · have e1 : max i (D + 1) = i := max_eq_left (by omega)
        have e2 : max (i + 1) (D + 1) = i + 1 := max_eq_left (by omega)
        rw [e2] at hg2
        rw [e1]
        linear_combination hg2
    · refine ⟨g, ?_, ?_⟩
      · simp only [setOffSetLoop, hlt, if_true, hb, if_false, hb2, Int.cast_id]
        simp only [hiD, if_false] at hg ⊢
        rw [if_neg hb3, hg]
      · have e1 : max i (D + 1) = D + 1 := max_eq_right (by omega)
        have e2 : max (i + 1) (D + 1) = D + 1 := max_eq_right (by omega)
        rw [e2] at hg2
        rw [e1]
        exact hg2

theorem setOffSetLoop_cast {β : Type} [Ring β] (M D : Int) (fuel : Nat) :
    ∀ (i o b : Int), setOffSetLoop M D fuel i (o : β) b =
      ((((setOffSetLoop M D fuel i o b).1 : Int) : β), (setOffSetLoop M D fuel i o b).2) := by
  induction fuel with
  | zero => intro i o b; simp [setOffSetLoop]
  | succ n ih =>
    intro i o b
    by_cases hlt : i < M
    · by_cases hiD : i > D
      · simp only [setOffSetLoop, hlt, if_true, hiD, Int.cast_id]
        rw [← Int.cast_add, ih]
      · simp only [setOffSetLoop, hlt, if_true, hiD, if_false]
        rw [ih]
    · simp [setOffSetLoop, hlt]

theorem setOffSetLoop_from_zero (M D : Int) (hD : 0 ≤ D) (hDM : D < M) :
    ∃ g : Int, setOffSetLoop M D M.toNat 0 (0 : Int) 0 = (g, 1) ∧
      2 * g = (M - D) * (M - D + 1) - 2 := by
  obtain ⟨n, hn⟩ : ∃ n : Nat, M.toNat = n + 1 := ⟨M.toNat - 1, by omega⟩
  obtain ⟨g, hg, hg2⟩ := setOffSetLoop_int M D hDM n 1 0 (by omega) (le_refl _)
  refine ⟨g, ?_, ?_⟩
  · have hM : (0 : Int) < M := by omega
    have hD0 : ¬ (0 > D) := by omega
    rw [hn]
    simp only [setOffSetLoop, hM, if_true, hD0, if_false]
    simp only [zero_sub, Int.reduceNeg, Left.neg_neg_iff, zero_lt_one, if_true, zero_add]
    simpa using hg
  · have e1 : max 1 (D + 1) = D + 1 := max_eq_right (by omega)
    rw [e1] at hg2
    linear_combination hg2

theorem guide_idle_step {α : Type} [LinearOrderedField α] (cfg : Config α)
    (bearing : waypoint α → α) (gz : Int) (s : RoboBrain α) (h0 : s.nowpoint = 0)
    (hb0 : 0 ≤ s.bufferSpot) (hb : s.bufferSpot < 1499) (hl : s.ofBuffer.length = 1500) :
    ∃ s1, guide cfg bearing gz false s = some s1 ∧ s1.nowpoint = 0 ∧
      s1.bufferSpot = s.bufferSpot + 1 ∧ s1.ofBuffer.length = 1500 ∧ s1.offSet = s.offSet := by
  have hin : 0 ≤ s.bufferSpot ∧ s.bufferSpot.toNat < s.ofBuffer.length := ⟨hb0, by omega⟩
  have hw : ¬ (s.bufferSpot + 1 ≥ 1500) := by omega
  refine ⟨{ s with ofBuffer := s.ofBuffer.set s.bufferSpot.toNat gz,
                   bufferSpot := s.bufferSpot + 1 }, ?_, h0, rfl, ?_, rfl⟩
  · simp [guide, h0, fillBuffer, hin, hw]
  · simp [hl]

theorem guideIdle_spot {α : Type} [LinearOrderedField α] (cfg : Config α)
    (bearing : waypoint α → α) (gz : Int) (n : Nat) :
    ∀ s : RoboBrain α, s.nowpoint = 0 → 0 ≤ s.bufferSpot → s.bufferSpot + n ≤ 1499 →
      s.ofBuffer.length = 1500 →
      ∃ s1, guideIdle cfg bearing gz n s = some s1 ∧ s1.nowpoint = 0 ∧
        s1.bufferSpot = s.bufferSpot + n ∧ s1.ofBuffer.length = 1500 ∧
        s1.offSet = s.offSet := by
  induction n with
  | zero => intro s h0 _ _ hl; exact ⟨s, rfl, h0, by simp, hl, rfl⟩
  | succ n ih =>
    intro s h0 hb0 hb hl
    obtain ⟨s1, h1, h10, h1b, h1l, h1o⟩ :=
      guide_idle_step cfg bearing gz s h0 hb0 (by push_cast at hb; omega) hl
    obtain ⟨s2, h2, h20, h2b, h2l, h2o⟩ := ih s1 h10 (by omega) (by push_cast at hb; omega) h1l
    refine ⟨s2, ?_, h20, ?_, h2l, ?_⟩
    · simp [guideIdle, h1, h2]
    · rw [h2b, h1b]; push_cast; ring
    · rw [h2o, h1o]

/-- C4 (fails on the code).  With `bufferMax = 1500` and `bufferDiscard = 300`, after 1500
calls of `guide` that each store the gyro sample `v` (the button is pressed in
the last one, which runs `setOffSet`), the offset is 720599/1200 whatever `v`
is: `setOffSet` adds up the values of the index `bufferSpot`, not the samples
`ofBuffer[bufferSpot]`.  With an `int` offset the same loop gives 600. -/
theorem setOffSet_ignores_samples (bearing : waypoint ℚ → ℚ) (v : Int) :
    (∃ s1 s2, guideIdle (rmcConfig ℚ) bearing v 1499 calibBrain = some s1 ∧
      guide (rmcConfig ℚ) bearing v true s1 = some s2 ∧
      s2.nowpoint = 1 ∧ s2.offSet = 720599 / 1200) ∧
    (setOffSet (1500 : Int) 300 (0 : Int) 0).1 = 600 := by
  obtain ⟨g, hg, hg2⟩ := setOffSetLoop_from_zero 1500 300 (by decide) (by decide)
  have hgv : g = 720599 := by omega
  subst hgv
  constructor
  · obtain ⟨s1, h1, h10, h1b, h1l, h1o⟩ :=
      guideIdle_spot (rmcConfig ℚ) bearing v 1499 calibBrain rfl (by decide) (by decide)
        (List.length_replicate _ _)
    have hb : s1.bufferSpot = 1499 := by rw [h1b]; rfl
    have ho : s1.offSet = ((0 : Int) : ℚ) := by
      rw [h1o, show calibBrain.offSet = 0 from rfl]; simp
    have hin : 0 ≤ s1.bufferSpot ∧ s1.bufferSpot.toNat < s1.ofBuffer.length := by
      rw [hb, h1l]; decide
    have hloop := setOffSetLoop_cast (β := ℚ) 1500 300 (1500 : Int).toNat 0 0 0
    rw [hg] at hloop
    have hw : s1.bufferSpot + 1 ≥ 1500 := by rw [hb]; decide
    have hgd : ∃ s2, guide (rmcConfig ℚ) bearing v true s1 = some s2 ∧ s2.nowpoint = 1 ∧
        s2.offSet = (setOffSet (1500 : Int) 300 (((0 : Int) : ℚ)) 0).1 := by
      simp only [guide, h10, if_true, fillBuffer, hin, and_self, hw, ho]
      exact ⟨_, rfl, rfl, rfl⟩
    obtain ⟨s2, h2, h2n, h2o⟩ := hgd
    refine ⟨s1, s2, h1, h2, h2n, ?_⟩
    rw [h2o]
    simp only [setOffSet, hloop]
    norm_num
  · simp only [setOffSet, hg]
    decide

/-! ## The GPS fix processor: storing the bytes of a sentence -/

theorem delimOffsets_append (a b : List Nat) :
    ∀ off, delimOffsets off (a ++ b) = delimOffsets off a ++ delimOffsets (off + a.length) b := by
  induction a with
  | nil => intro off; simp [delimOffsets]
  | cons c cs ih =>
    intro off
    by_cases hc : isDelim c = true
    · simp [delimOffsets, hc, ih, Nat.add_assoc, Nat.add_comm 1]
    · simp [delimOffsets, hc, ih, Nat.add_assoc, Nat.add_comm 1]

theorem delimOffsets_snoc (fed : List Nat) (ch : Nat) :
    delimOffsets 0 (fed ++ [ch]) =
      delimOffsets 0 fed ++ (if isDelim ch then [fed.length] else []) := by
  rw [delimOffsets_append]
  by_cases hc : isDelim ch = true <;> simp [delimOffsets, hc]

theorem delimOffsets_bound (l : List Nat) :
    ∀ off p, p ∈ delimOffsets off l → off ≤ p ∧ p < off + l.length := by
  induction l with
  | nil => intro off p h; simp [delimOffsets] at h
  | cons c cs ih =>
    intro off p h
    by_cases hc : isDelim c = true
    · simp only [delimOffsets, hc, if_true, List.mem_cons] at h
      rcases h with h | h
      · subst h; simp
      · have := ih _ _ h
        simp only [List.length_cons]; omega
    · simp only [delimOffsets, hc] at h
      have := ih _ _ h
      simp only [List.length_cons]; omega

theorem length_delimOffsets_le (l : List Nat) :
    ∀ off, (delimOffsets off l).length ≤ l.length := by
  induction l with
  | nil => intro off; simp [delimOffsets]
  | cons c cs ih =>
    intro off
    by_cases hc : isDelim c = true
    · simp only [delimOffsets, hc, if_true, List.length_cons]; have := ih (off + 1); omega
    · simp only [delimOffsets, hc, List.length_cons]; have := ih (off + 1)
      simp only [Bool.false_eq_true, if_false]; omega

theorem set_stored (fed buf : List Nat) (ch : Nat) (h : fed.length < buf.length) :
    (fed ++ buf.drop fed.length).set fed.length ch =
      (fed ++ [ch]) ++ buf.drop (fed ++ [ch]).length := by
  rw [List.set_append_right _ _ (le_refl _), List.drop_eq_getElem_cons h]
  simp only [Nat.sub_self, List.set_cons_zero, List.length_append, List.length_singleton,
    List.append_assoc, List.singleton_append]

theorem storeChar_accumulated {α : Type} (s0 : RoboBrain α) (fed : List Nat) (ch : Nat)
    (hlen : fed.length < s0.nmeaReceived.length)
    (hpart : isDelim ch = true → (delimOffsets 0 fed).length < s0.partitions.length) :
    storeChar (accumulated s0 fed) ch = some (accumulated s0 (fed ++ [ch])) := by
  have hin : (accumulated s0 fed).charsReceived < (accumulated s0 fed).nmeaReceived.length := by
    simp only [accumulated, List.length_append, List.length_drop]; omega
  unfold storeChar
  rw [if_pos hin]
  by_cases hc : isDelim ch = true
  · have hp := hpart hc
    have hin2 : (accumulated s0 fed).partCount < (accumulated s0 fed).partitions.length := by
      simp only [accumulated, List.length_append, List.length_drop]; omega
    simp only [hc, if_true, hin2]
    simp only [accumulated, set_stored fed _ ch hlen, delimOffsets_snoc, hc, if_true,
      List.length_append, List.length_singleton]
    congr 2
    simpa using set_stored (delimOffsets 0 fed) s0.partitions fed.length hp
  · simp only [hc]
    simp only [accumulated, set_stored fed _ ch hlen, delimOffsets_snoc, hc,
      List.length_append, List.length_singleton, List.append_nil]
    simp

theorem accumulated_nil {α : Type} (s0 : RoboBrain α) (hc : s0.charsReceived = 0)
    (hp : s0.partCount = 0) :
    accumulated s0 [] = { s0 with sentenceStart := true } := by
  cases s0
  simp only [accumulated, delimOffsets, List.length_nil, List.drop_zero, List.nil_append]
  simp_all

theorem navigateGPSChar_accumulated {α : Type} [LinearOrderedField α] [FloorRing α]
    (cfg : Config α) (atof : List Nat → α) (cosf : α → α) (s0 : RoboBrain α)
    (fed : List Nat) (ch : Nat) (hlen : fed.length < s0.nmeaReceived.length)
    (hpart : isDelim ch = true → (delimOffsets 0 fed).length < s0.partitions.length) :
    navigateGPSChar cfg atof cosf (accumulated s0 fed) ch =
      examine cfg atof cosf (accumulated s0 (fed ++ [ch])) := by
  have h1 : (if ch = 36 then { accumulated s0 fed with sentenceStart := true }
      else accumulated s0 fed) = accumulated s0 fed := by
    split_ifs <;> rfl
  unfold navigateGPSChar
  simp only [h1, storeChar_accumulated s0 fed ch hlen hpart]
  rfl

theorem navigateGPSChar_idle {α : Type} [LinearOrderedField α] [FloorRing α]
    (cfg : Config α) (atof : List Nat → α) (cosf : α → α) (s : RoboBrain α) (ch : Nat)
    (hs : s.sentenceStart = false) (hch : ch ≠ 36) :
    navigateGPSChar cfg atof cosf s ch = some (s, false) := by
  simp [navigateGPSChar, hch, hs]

theorem feed_idle {α : Type} [LinearOrderedField α] [FloorRing α]
    (cfg : Config α) (atof : List Nat → α) (cosf : α → α) (bs : List Nat) :
    ∀ s : RoboBrain α, s.sentenceStart = false → 36 ∉ bs → feed cfg atof cosf s bs = some s := by
  induction bs with
  | nil => intro s _ _; rfl
  | cons c cs ih =>
    intro s hs hn
    have hc : c ≠ 36 := fun h => hn (by simp [h])
    have hcs : 36 ∉ cs := fun h => hn (by simp [h])
    simp only [feed, navigateGPSChar_idle cfg atof cosf s c hs hc]
    exact ih s hs hcs

theorem navigateGPSChar_start {α : Type} [LinearOrderedField α] [FloorRing α]
    (cfg : Config α) (atof : List Nat → α) (cosf : α → α) (s0 : RoboBrain α)
    (hc : s0.charsReceived = 0) (hp : s0.partCount = 0)
    (hlen : 0 < s0.nmeaReceived.length) :
    navigateGPSChar cfg atof cosf s0 36 = examine cfg atof cosf (accumulated s0 [36]) := by
  have h := navigateGPSChar_accumulated cfg atof cosf s0 [] 36 hlen (by simp [isDelim])
  rw [accumulated_nil s0 hc hp, List.nil_append] at h
  rw [← h]
  simp [navigateGPSChar]

/-! ## The three tests on a stored prefix -/

theorem acc_partitions_get {α : Type} (s0 : RoboBrain α) (f : List Nat) (k : Nat)
    (hk : k < (delimOffsets 0 f).length) :
    (accumulated s0 f).partitions[k]? = (delimOffsets 0 f)[k]? := by
  simp only [accumulated]
  exact List.getElem?_append_left hk

theorem acc_nmea_get_lt {α : Type} (s0 : RoboBrain α) (f : List Nat) (i : Nat)
    (hi : i < f.length) : (accumulated s0 f).nmeaReceived[i]? = f[i]? := by
  simp only [accumulated]
  exact List.getElem?_append_left hi

theorem acc_nmea_get_ge {α : Type} (s0 : RoboBrain α) (f : List Nat) (i : Nat)
    (hi : f.length ≤ i) : (accumulated s0 f).nmeaReceived[i]? = s0.nmeaReceived[i]? := by
  simp only [accumulated]
  rw [List.getElem?_append_right hi, List.getElem?_drop]
  congr 1
  omega

theorem delimOffsets_get_lt (f : List Nat) (k p : Nat) (h : (delimOffsets 0 f)[k]? = some p) :
    p < f.length := by
  have hm : p ∈ delimOffsets 0 f := List.getElem?_mem h
  have := delimOffsets_bound f 0 p hm
  omega

theorem wrongType_some {α : Type} (cfg : Config α) (s0 : RoboBrain α) (f : List Nat) :
    ∃ b, wrongType cfg (accumulated s0 f) = some b := by
  unfold wrongType
  by_cases h : (accumulated s0 f).partCount = cfg.timeSpot + 1
  · have hk : cfg.timeSpot < (delimOffsets 0 f).length := by
      have : (accumulated s0 f).partCount = (delimOffsets 0 f).length := rfl
      omega
    rw [if_pos h, acc_partitions_get s0 f _ hk, List.getElem?_eq_getElem hk]
    exact ⟨_, rfl⟩
  · rw [if_neg h]; exact ⟨_, rfl⟩

theorem wrongType_of_count {α : Type} (cfg : Config α) (s0 : RoboBrain α) (f : List Nat)
    (h : (delimOffsets 0 f).length ≠ cfg.timeSpot + 1) :
    wrongType cfg (accumulated s0 f) = some false := by
  unfold wrongType
  have : (accumulated s0 f).partCount = (delimOffsets 0 f).length := rfl
  rw [if_neg (by omega)]

theorem voidStatus_of_count {α : Type} (cfg : Config α) (s0 : RoboBrain α) (f : List Nat)
    (h : (delimOffsets 0 f).length ≠ cfg.statusSpot + 1) :
    voidStatus cfg (accumulated s0 f) = some false := by
  unfold voidStatus
  have : (accumulated s0 f).partCount = (delimOffsets 0 f).length := rfl
  rw [if_neg (by omega)]

theorem sentenceDone_of_count {α : Type} (cfg : Config α) (s0 : RoboBrain α) (f : List Nat)
    (h : (delimOffsets 0 f).length ≠ cfg.checksumSpot + 1) :
    sentenceDone cfg (accumulated s0 f) = some false := by
  unfold sentenceDone
  have : (accumulated s0 f).partCount = (delimOffsets 0 f).length := rfl
  rw [if_neg (by omega)]

/-- The byte that the test of line 152 reads: the one behind the status delimiter, which is a
byte of `s0` when the delimiter is the last byte stored. -/
theorem voidStatus_eq {α : Type} (cfg : Config α) (s0 : RoboBrain α) (f : List Nat) (p : Nat)
    (hc : (delimOffsets 0 f).length = cfg.statusSpot + 1)
    (hp : (delimOffsets 0 f)[cfg.statusSpot]? = some p) :
    voidStatus cfg (accumulated s0 f) =
      (if p + 1 < f.length then f[p + 1]? else s0.nmeaReceived[p + 1]?).map (fun c => c == 86) := by
  unfold voidStatus
  have hpc : (accumulated s0 f).partCount = cfg.statusSpot + 1 := hc
  rw [if_pos hpc, acc_partitions_get s0 f _ (by omega), hp]
  by_cases h : p + 1 < f.length
  · simp only [acc_nmea_get_lt s0 f _ h, if_pos h]
    cases f[p + 1]? <;> rfl
  · simp only [acc_nmea_get_ge s0 f _ (not_lt.mp h), if_neg h]
    cases s0.nmeaReceived[p + 1]? <;> rfl

theorem voidStatus_some {α : Type} (cfg : Config α) (s0 : RoboBrain α) (f : List Nat)
    (hfit : f.length < s0.nmeaReceived.length) :
    ∃ b, voidStatus cfg (accumulated s0 f) = some b := by
  by_cases hc : (delimOffsets 0 f).length = cfg.statusSpot + 1
  · have hk : cfg.statusSpot < (delimOffsets 0 f).length := by omega
    have hp := List.getElem?_eq_getElem hk
    have hlt := delimOffsets_get_lt f _ _ hp
    rw [voidStatus_eq cfg s0 f _ hc hp]
    by_cases h : (delimOffsets 0 f)[cfg.statusSpot] + 1 < f.length
    · rw [if_pos h, List.getElem?_eq_getElem h]; exact ⟨_, rfl⟩
    · rw [if_neg h, List.getElem?_eq_getElem (by omega)]; exact ⟨_, rfl⟩
  · exact ⟨false, voidStatus_of_count cfg s0 f hc⟩

theorem sentenceDone_eq {α : Type} (cfg : Config α) (s0 : RoboBrain α) (f : List Nat) (p : Nat)
    (hc : (delimOffsets 0 f).length = cfg.checksumSpot + 1)
    (hp : (delimOffsets 0 f)[cfg.checksumSpot]? = some p) :
    sentenceDone cfg (accumulated s0 f) = some (decide (f.length = p + 3)) := by
  unfold sentenceDone
  have hpc : (accumulated s0 f).partCount = cfg.checksumSpot + 1 := hc
  rw [if_pos hpc, acc_partitions_get s0 f _ (by omega), hp]
  rfl

theorem sentenceDone_some {α : Type} (cfg : Config α) (s0 : RoboBrain α) (f : List Nat) :
    ∃ b, sentenceDone cfg (accumulated s0 f) = some b := by
  by_cases hc : (delimOffsets 0 f).length = cfg.checksumSpot + 1
  · have hk : cfg.checksumSpot < (delimOffsets 0 f).length := by omega
    exact ⟨_, sentenceDone_eq cfg s0 f _ hc (List.getElem?_eq_getElem hk)⟩
  · exact ⟨false, sentenceDone_of_count cfg s0 f hc⟩

theorem idleFrame_discard {α : Type} (s0 : RoboBrain α) (f : List Nat) :
    IdleFrame s0 (discard (accumulated s0 f)) :=
  ⟨rfl, rfl, rfl, rfl, rfl, rfl, rfl⟩

/-- Feeding the rest `bs` of the bytes `S` to a parser that has stored `fed`: as long as the
sentence, whenever it is complete, fails the checksum, the parser either ends
idle with position, heading and origin untouched, or has stored all of `S`
without any of the three tests firing. -/
theorem feed_accumulated {α : Type} [LinearOrderedField α] [FloorRing α]
    (cfg : Config α) (atof : List Nat → α) (cosf : α → α) (s0 : RoboBrain α) (S : List Nat)
    (hfit : S.length ≤ s0.nmeaReceived.length)
    (hpfit : (delimOffsets 0 S).length ≤ s0.partitions.length)
    (hvs : ∀ f, f <+: S → ∃ b, voidStatus cfg (accumulated s0 f) = some b)
    (hrej : ∀ f, f <+: S → sentenceDone cfg (accumulated s0 f) = some true →
      ∃ s2, checkSentence cfg atof cosf (accumulated s0 f) = some (s2, false) ∧
        IdleFrame s0 s2) :
    ∀ bs fed, fed ++ bs = S → 36 ∉ bs →
      ∃ s1, feed cfg atof cosf (accumulated s0 fed) bs = some s1 ∧
        (IdleFrame s0 s1 ∨
          (s1 = accumulated s0 S ∧ ∀ g, g <+: bs → g ≠ [] →
            wrongType cfg (accumulated s0 (fed ++ g)) = some false ∧
            voidStatus cfg (accumulated s0 (fed ++ g)) = some false ∧
            sentenceDone cfg (accumulated s0 (fed ++ g)) = some false)) := by
  intro bs
  induction bs with
  | nil =>
    intro fed hS _
    simp only [List.append_nil] at hS
    subst hS
    exact ⟨_, rfl, Or.inr ⟨rfl, fun g hg hne => absurd (List.prefix_nil.mp hg) hne⟩⟩
  | cons c cs ih =>
    intro fed hS hno
    have hcs : 36 ∉ cs := fun h => hno (by simp [h])
    have hS2 : (fed ++ [c]) ++ cs = S := by simp [← hS]
    have hpre : fed ++ [c] <+: S := ⟨cs, hS2⟩
    have hlen : fed.length < s0.nmeaReceived.length := by
      have : S.length = fed.length + (cs.length + 1) := by simp [← hS]
      omega
    have hcount : (delimOffsets 0 (fed ++ [c])).length ≤ s0.partitions.length := by
      have : (delimOffsets 0 S).length =
          (delimOffsets 0 (fed ++ [c])).length + (delimOffsets (fed ++ [c]).length cs).length := by
        rw [← hS2, delimOffsets_append, List.length_append]; simp
      omega
    have hpart : isDelim c = true → (delimOffsets 0 fed).length < s0.partitions.length := by
      intro hd
      rw [delimOffsets_snoc, if_pos hd] at hcount
      simp only [List.length_append, List.length_singleton] at hcount
      omega
    have hstep := navigateGPSChar_accumulated cfg atof cosf s0 fed c hlen hpart
    obtain ⟨b1, hb1⟩ := wrongType_some cfg s0 (fed ++ [c])
    obtain ⟨b2, hb2⟩ := hvs _ hpre
    obtain ⟨b3, hb3⟩ := sentenceDone_some cfg s0 (fed ++ [c])
    cases b1 with
    | true =>
      refine ⟨discard (accumulated s0 (fed ++ [c])), ?_, Or.inl (idleFrame_discard _ _)⟩
      simp only [feed, hstep, examine, hb1]
      exact feed_idle cfg atof cosf cs _ rfl hcs
    | false =>
      cases b2 with
      | true =>
        refine ⟨discard (accumulated s0 (fed ++ [c])), ?_, Or.inl (idleFrame_discard _ _)⟩
        simp only [feed, hstep, examine, hb1, hb2]
        exact feed_idle cfg atof cosf cs _ rfl hcs
      | false =>
        cases b3 with
        | true =>
          obtain ⟨s2, hs2, hidle⟩ := hrej _ hpre hb3
          refine ⟨s2, ?_, Or.inl hidle⟩
          simp only [feed, hstep, examine, hb1, hb2, hb3, hs2]
          exact feed_idle cfg atof cosf cs _ hidle.1 hcs
        | false =>
          obtain ⟨s1, hs1, hres⟩ := ih (fed ++ [c]) hS2 hcs
          refine ⟨s1, ?_, ?_⟩
          · simp only [feed, hstep, examine, hb1, hb2, hb3]
            exact hs1
          · rcases hres with hres | ⟨hres, hall⟩
            · exact Or.inl hres
            · refine Or.inr ⟨hres, ?_⟩
              intro g hg hne
              cases g with
              | nil => exact absurd rfl hne
              | cons x g' =>
                have hx : x = c := by
                  have := List.cons_prefix_cons.mp hg
                  exact this.1
                have hg' : g' <+: cs := (List.cons_prefix_cons.mp hg).2
                subst hx
                by_cases hgn : g' = []
                · subst hgn
                  exact ⟨hb1, hb2, hb3⟩
                · have := hall g' hg' hgn
                  simpa using this

theorem delimOffsets_mono (f S : List Nat) (h : f <+: S) :
    delimOffsets 0 f <+: delimOffsets 0 S := by
  obtain ⟨r, rfl⟩ := h
  rw [delimOffsets_append]
  exact List.prefix_append _ _

theorem delimOffsets_mono_get (f S : List Nat) (h : f <+: S) (k : Nat)
    (hk : k < (delimOffsets 0 f).length) :
    (delimOffsets 0 f)[k]? = (delimOffsets 0 S)[k]? := by
  obtain ⟨r, hr⟩ := delimOffsets_mono f S h
  rw [← hr, List.getElem?_append_left hk]

theorem examine_dollar {α : Type} [LinearOrderedField α] [FloorRing α]
    (cfg : Config α) (atof : List Nat → α) (cosf : α → α) (s0 : RoboBrain α) :
    examine cfg atof cosf (accumulated s0 [36]) = some (accumulated s0 [36], false) := by
  have h0 : (delimOffsets 0 [36]).length = 0 := by simp [delimOffsets, isDelim]
  simp only [examine, wrongType_of_count cfg s0 [36] (by omega),
    voidStatus_of_count cfg s0 [36] (by omega), sentenceDone_of_count cfg s0 [36] (by omega)]

theorem feed_start {α : Type} [LinearOrderedField α] [FloorRing α]
    (cfg : Config α) (atof : List Nat → α) (cosf : α → α) (s0 : RoboBrain α) (t : List Nat)
    (hc : s0.charsReceived = 0) (hp : s0.partCount = 0)
    (hlen : 0 < s0.nmeaReceived.length) :
    feed cfg atof cosf s0 (36 :: t) = feed cfg atof cosf (accumulated s0 [36]) t := by
  simp only [feed, navigateGPSChar_start cfg atof cosf s0 hc hp hlen, examine_dollar]

theorem feed_append {α : Type} [LinearOrderedField α] [FloorRing α]
    (cfg : Config α) (atof : List Nat → α) (cosf : α → α) (a b : List Nat) :
    ∀ s s1 : RoboBrain α, feed cfg atof cosf s a = some s1 →
      feed cfg atof cosf s (a ++ b) = feed cfg atof cosf s1 b := by
  induction a with
  | nil => intro s s1 h; simp only [feed, Option.some.injEq] at h; subst h; rfl
  | cons c cs ih =>
    intro s s1 h
    simp only [feed, List.cons_append] at h ⊢
    cases hstep : navigateGPSChar cfg atof cosf s c with
    | none => rw [hstep] at h; cases h
    | some r =>
      rw [hstep] at h
      simp only at h ⊢
      exact ih _ _ h

/-! ## Sentences with status `V` -/

theorem delimOffsets_status (A : List Nat) (d : Nat) (hd : isDelim d = true) :
    delimOffsets 0 (A ++ [d]) = delimOffsets 0 A ++ [A.length] ∧
    delimOffsets 0 (A ++ [d, 86]) = delimOffsets 0 A ++ [A.length] := by
  constructor
  · rw [delimOffsets_snoc, if_pos hd]
  · rw [delimOffsets_append]
    have h86 : isDelim 86 = false := by decide
    simp [delimOffsets, hd, h86]

theorem prefix_status_cases (A f : List Nat) (d : Nat) (h : f <+: A ++ [d, 86]) :
    f <+: A ∨ f = A ++ [d] ∨ f = A ++ [d, 86] := by
  have e : A ++ [d, 86] = (A ++ [d]) ++ [86] := by simp
  rw [e, List.prefix_concat_iff] at h
  rcases h with h | h
  · exact Or.inr (Or.inr (by rw [h]; simp))
  · rw [List.prefix_concat_iff] at h
    rcases h with h | h
    · exact Or.inr (Or.inl h)
    · exact Or.inl h

/-- C7.  A sentence `$ pre d V rest` whose byte behind delimiter number `statusSpot + 1` is `V`,
fed to an idle parser with empty counters: it is thrown away at the latest when
the `V` has been read, and after the whole sentence as well the parser is idle
with both counters 0 and with `pos`, `heading`, `lat0` and `long0` as they were,
whatever the bytes `rest` behind the status are.  (The sentence has no `$`
inside, its bytes up to the `V` fit the buffer, and the status field comes
before the checksum.) -/
theorem void_sentence_discarded {α : Type} [LinearOrderedField α] [FloorRing α]
    (cfg : Config α) (atof : List Nat → α) (cosf : α → α) (s0 : RoboBrain α)
    (pre rest : List Nat) (d : Nat)
    (hc : s0.charsReceived = 0) (hp : s0.partCount = 0)
    (hpre : 36 ∉ pre) (hd : isDelim d = true) (hrest : 36 ∉ rest)
    (hcount : (delimOffsets 0 (36 :: pre)).length = cfg.statusSpot)
    (hcfg : cfg.statusSpot ≤ cfg.checksumSpot)
    (hfit : ((36 :: pre) ++ [d, 86]).length ≤ s0.nmeaReceived.length)
    (hpfit : cfg.statusSpot + 1 ≤ s0.partitions.length) :
    (∃ s1, feed cfg atof cosf s0 ((36 :: pre) ++ [d, 86]) = some s1 ∧ IdleFrame s0 s1) ∧
    (∃ s2, feed cfg atof cosf s0 ((36 :: pre) ++ [d, 86] ++ rest) = some s2 ∧
      IdleFrame s0 s2) := by
  obtain ⟨hdA, hdS⟩ := delimOffsets_status (36 :: pre) d hd
  have hlenS : ((36 :: pre) ++ [d, 86]).length = (36 :: pre).length + 2 := by simp
  have hgetS : (delimOffsets 0 ((36 :: pre) ++ [d, 86]))[cfg.statusSpot]? =
      some (36 :: pre).length := by
    rw [hdS,
      List.getElem?_append_right (by omega), hcount]
    simp
  have hgetA : (delimOffsets 0 ((36 :: pre) ++ [d]))[cfg.statusSpot]? =
      some (36 :: pre).length := by
    rw [hdA, List.getElem?_append_right (by omega), hcount]
    simp
  have hcountS : (delimOffsets 0 ((36 :: pre) ++ [d, 86])).length = cfg.statusSpot + 1 := by
    rw [hdS]
    simp [hcount]
  have hcountA : (delimOffsets 0 ((36 :: pre) ++ [d])).length = cfg.statusSpot + 1 := by
    rw [hdA]; simp [hcount]
  -- the test of line 152 fires on the whole prefix
  have hvoid : voidStatus cfg (accumulated s0 ((36 :: pre) ++ [d, 86])) = some true := by
    rw [voidStatus_eq cfg s0 _ _ hcountS hgetS, if_pos (by rw [hlenS]; omega)]
    have : ((36 :: pre) ++ [d, 86])[(36 :: pre).length + 1]? = some 86 := by
      rw [List.getElem?_append_right (by omega)]
      simp
    rw [this]; rfl
  have hmain : ∃ s1, feed cfg atof cosf s0 ((36 :: pre) ++ [d, 86]) = some s1 ∧
      IdleFrame s0 s1 := by
    have hstart := feed_start cfg atof cosf s0 (pre ++ [d, 86]) hc hp
      (by rw [hlenS] at hfit; omega)
    have hacc := feed_accumulated cfg atof cosf s0 ((36 :: pre) ++ [d, 86]) hfit
      (by rw [hcountS]; exact hpfit)
      (by
        intro f hf
        rcases prefix_status_cases (36 :: pre) f d hf with h | h | h
        · exact voidStatus_some cfg s0 f (by
            have := h.length_le
            rw [hlenS] at hfit; omega)
        · exact voidStatus_some cfg s0 f (by
            rw [h, List.length_append, List.length_singleton]
            rw [hlenS] at hfit; omega)
        · rw [h]; exact ⟨true, hvoid⟩)
      (by
        intro f hf hdone
        exfalso
        have hfalse : sentenceDone cfg (accumulated s0 f) = some false := by
          rcases prefix_status_cases (36 :: pre) f d hf with h | h | h
          · have hle := (delimOffsets_mono f _ h).length_le
            exact sentenceDone_of_count cfg s0 f (by omega)
          · by_cases hcs : cfg.statusSpot = cfg.checksumSpot
            · rw [h, sentenceDone_eq cfg s0 _ (36 :: pre).length (by rw [hcountA, hcs])
                (by rw [← hcs]; exact hgetA)]
              simp
            · exact sentenceDone_of_count cfg s0 f (by rw [h, hcountA]; omega)
          · by_cases hcs : cfg.statusSpot = cfg.checksumSpot
            · rw [h, sentenceDone_eq cfg s0 _ (36 :: pre).length
                (by rw [← hcs]; exact hcountS) (by rw [← hcs]; exact hgetS)]
              simp
            · exact sentenceDone_of_count cfg s0 f (by
                rw [h]
                have := hcountS
                simp only [List.cons_append] at this ⊢
                omega)
        rw [hfalse] at hdone
        cases hdone)
      (pre ++ [d, 86]) [36] rfl (by simp [hpre, isDelim]; intro h; subst h; simp [isDelim] at hd)
    obtain ⟨s1, hs1, hres⟩ := hacc
    refine ⟨s1, by rw [List.cons_append, hstart]; exact hs1, ?_⟩
    rcases hres with hres | ⟨_, hall⟩
    · exact hres
    · have := (hall (pre ++ [d, 86]) List.prefix_rfl (by simp)).2.1
      rw [show [36] ++ (pre ++ [d, 86]) = (36 :: pre) ++ [d, 86] from rfl, hvoid] at this
      cases this
  refine ⟨hmain, ?_⟩
  obtain ⟨s1, hs1, hidle⟩ := hmain
  refine ⟨s1, ?_, hidle⟩
  rw [feed_append cfg atof cosf _ rest s0 s1 hs1]
  exact feed_idle cfg atof cosf rest s1 hidle.1 hrest

theorem void_sentence_discarded_witness :
    (∃ s1, feed (rmcConfig ℚ) atofDec (fun _ => 1) gpsBrain ((36 :: voidPre) ++ [44, 86]) =
        some s1 ∧ IdleFrame gpsBrain s1) ∧
    (∃ s2, feed (rmcConfig ℚ) atofDec (fun _ => 1) gpsBrain
        ((36 :: voidPre) ++ [44, 86] ++ voidRest) = some s2 ∧ IdleFrame gpsBrain s2) :=
  void_sentence_discarded (rmcConfig ℚ) atofDec (fun _ => 1) gpsBrain voidPre voidRest 44
    rfl rfl (by decide) (by decide) (by decide) (by decide) (by decide) (by decide)
    (by decide)

/-! ## C strings, checksum and hexadecimal digits -/

theorem hexVal_some (c v : Nat) (h : hexVal c = some v) :
    48 ≤ c ∧ c ≤ 102 ∧ c ≠ 0 ∧ isDelim c = false ∧ c ≠ 36 ∧ v < 16 := by
  unfold hexVal at h
  have hd : isDelim c = false ∨ c = 44 ∨ c = 42 := by
    by_cases h1 : c = 44
    · exact Or.inr (Or.inl h1)
    · by_cases h2 : c = 42
      · exact Or.inr (Or.inr h2)
      · left; simp [isDelim, h1, h2]
  split_ifs at h with h1 h2 h3
  · simp only [Option.some.injEq] at h
    rcases hd with hd | hd | hd
    · exact ⟨by omega, by omega, by omega, hd, by omega, by omega⟩
    · omega
    · omega
  · simp only [Option.some.injEq] at h
    rcases hd with hd | hd | hd
    · exact ⟨by omega, by omega, by omega, hd, by omega, by omega⟩
    · omega
    · omega
  · simp only [Option.some.injEq] at h
    rcases hd with hd | hd | hd
    · exact ⟨by omega, by omega, by omega, hd, by omega, by omega⟩
    · omega
    · omega

theorem strtol16_hex2 (h1 h2 a b : Nat) (ha : hexVal h1 = some a) (hb : hexVal h2 = some b) :
    strtol16 [h1, h2] = ((16 * a + b : Nat) : Int) := by
  obtain ⟨h1lo, h1hi, _, _, _, _⟩ := hexVal_some h1 a ha
  have hsp : isSpace h1 = false := by
    simp only [isSpace, Bool.or_eq_false_iff, beq_eq_false_iff_ne, Bool.and_eq_false_iff,
      decide_eq_false_iff_not]
    exact ⟨by omega, Or.inr (by omega)⟩
  have hm : (h1 == 45) = false := by simp; omega
  have hpl : (h1 == 43) = false := by simp; omega
  unfold strtol16
  simp [List.dropWhile, hsp, hm, hpl, hexDigits, ha, hb]

theorem xorBytes_foldl_lt (bs : List Nat) :
    ∀ acc, acc < 128 → (∀ b ∈ bs, b < 128) →
      bs.foldl (fun acc b => (acc ^^^ b) % 256) acc < 128 := by
  induction bs with
  | nil => intro acc h _; simpa using h
  | cons c cs ih =>
    intro acc h hall
    simp only [List.foldl_cons]
    apply ih
    · have hc : c < 128 := hall c (by simp)
      have hx : acc ^^^ c < 2 ^ 7 := Nat.xor_lt_two_pow (by simpa using h) (by simpa using hc)
      have : (acc ^^^ c) % 256 = acc ^^^ c := Nat.mod_eq_of_lt (by omega)
      rw [this]; simpa using hx
    · intro b hb; exact hall b (by simp [hb])

theorem xorBytes_lt (bs : List Nat) (h : ∀ b ∈ bs, b < 128) : xorBytes bs < 128 :=
  xorBytes_foldl_lt bs 0 (by decide) h

theorem charToInt_ascii {α : Type} (cfg : Config α) (c : Nat) (h : c < 128) :
    charToInt cfg c = (c : Int) := by
  unfold charToInt
  have : ¬ (128 ≤ c) := by omega
  simp [this]

/-- The C string read from a sentence whose delimiters have been replaced by NUL and that is
followed by a NUL. -/
theorem cstr_zeroed (S r : List Nat) :
    ∀ i, i ≤ S.length →
      cstr (S.map (fun c => if c == 44 || c == 42 then 0 else c) ++ 0 :: r) i =
        (S.drop i).takeWhile (fun c => c != 0 && !(c == 44 || c == 42)) := by
  induction S with
  | nil => intro i hi; simp at hi; subst hi; simp [cstr]
  | cons c cs ih =>
    intro i hi
    cases i with
    | zero =>
      have h0 := ih 0 (Nat.zero_le _)
      simp only [cstr, List.drop_zero] at h0
      simp only [cstr, List.drop_zero, List.map_cons, List.cons_append]
      rw [List.takeWhile_cons, List.takeWhile_cons]
      by_cases hd : (c == 44 || c == 42) = true
      · simp [hd]
      · simp only [Bool.not_eq_true] at hd
        by_cases hz : c = 0
        · simp [hz]
        · have h1 : (c != 0) = true := by simp [hz]
          simp only [hd, Bool.false_eq_true, if_false, h1, if_true, Bool.not_false,
            Bool.and_self, h0]
    | succ n =>
      have := ih n (by simpa using hi)
      simpa [cstr] using this

theorem zeroed_get (S r : List Nat) (i : Nat) (hi : i < S.length) :
    ∃ v, (S.map (fun c => if c == 44 || c == 42 then 0 else c) ++ 0 :: r)[i]? = some v ∧
      (v = 83 ↔ S[i]? = some 83) ∧ (v = 87 ↔ S[i]? = some 87) := by
  rw [List.getElem?_append_left (by simpa using hi)]
  simp only [List.getElem?_map, List.getElem?_eq_getElem hi, Option.map_some']
  refine ⟨_, rfl, ?_, ?_⟩
  · by_cases hd : (S[i] == 44 || S[i] == 42) = true
    · simp only [hd, if_true, Option.some.injEq]
      simp only [Bool.or_eq_true, beq_iff_eq] at hd
      omega
    · simp [hd]
  · by_cases hd : (S[i] == 44 || S[i] == 42) = true
    · simp only [hd, if_true, Option.some.injEq]
      simp only [Bool.or_eq_true, beq_iff_eq] at hd
      omega
    · simp [hd]

/-! ## A well-formed sentence passes the three tests until it is complete -/

theorem delimOffsets_sentence (body : List Nat) (h1 h2 a b : Nat)
    (ha : hexVal h1 = some a) (hb : hexVal h2 = some b) :
    delimOffsets 0 (sentence body h1 h2) = delimOffsets 0 (36 :: body) ++ [(36 :: body).length] := by
  have d1 := (hexVal_some h1 a ha).2.2.2.1
  have d2 := (hexVal_some h2 b hb).2.2.2.1
  have d42 : isDelim 42 = true := by decide
  unfold sentence
  rw [delimOffsets_append]
  simp [delimOffsets, d1, d2, d42]

theorem prefix_get (f S : List Nat) (h : f <+: S) (i : Nat) (hi : i < f.length) :
    f[i]? = S[i]? := by
  obtain ⟨r, rfl⟩ := h
  rw [List.getElem?_append_left hi]

theorem wrongType_of_GPRMC {α : Type} (cfg : Config α) (s0 : RoboBrain α) (x : List Nat) :
    wrongType cfg (accumulated s0 ([36, 71, 80, 82, 77, 67] ++ x)) = some false := by
  obtain ⟨b, hb⟩ := wrongType_some cfg s0 ([36, 71, 80, 82, 77, 67] ++ x)
  unfold wrongType at hb ⊢
  by_cases hc : (accumulated s0 ([36, 71, 80, 82, 77, 67] ++ x)).partCount = cfg.timeSpot + 1
  · rw [if_pos hc] at hb ⊢
    cases hp : (accumulated s0 ([36, 71, 80, 82, 77, 67] ++ x)).partitions[cfg.timeSpot]? with
    | none => rw [hp] at hb; cases hb
    | some p =>
      simp only [accumulated, List.cons_append, List.nil_append, strncmpEq, GPRMC]
      simp
  · rw [if_neg hc]

theorem wrongType_wellFormed {α : Type} (cfg : Config α) (s0 : RoboBrain α)
    (body : List Nat) (h1 h2 : Nat) (wf : WellFormed cfg body h1 h2) (f : List Nat)
    (hf : f <+: sentence body h1 h2) : wrongType cfg (accumulated s0 f) = some false := by
  obtain ⟨t, ht⟩ := wf.type
  have hG : [36, 71, 80, 82, 77, 67] <+: sentence body h1 h2 := by
    refine ⟨44 :: t ++ [42, h1, h2], ?_⟩
    simp [sentence, ← ht]
  rcases List.prefix_or_prefix_of_prefix hf hG with h | h
  · have hle := (delimOffsets_mono f _ h).length_le
    have h0 : (delimOffsets 0 [36, 71, 80, 82, 77, 67]).length = 0 := by decide
    exact wrongType_of_count cfg s0 f (by omega)
  · obtain ⟨x, rfl⟩ := h
    exact wrongType_of_GPRMC cfg s0 x

theorem voidStatus_wellFormed {α : Type} (cfg : Config α) (s0 : RoboBrain α)
    (body : List Nat) (h1 h2 : Nat) (wf : WellFormed cfg body h1 h2)
    (hfit : (sentence body h1 h2).length < s0.nmeaReceived.length)
    (hclean : ∀ b ∈ s0.nmeaReceived, b ≠ 86) (f : List Nat)
    (hf : f <+: sentence body h1 h2) : voidStatus cfg (accumulated s0 f) = some false := by
  by_cases hc : (delimOffsets 0 f).length = cfg.statusSpot + 1
  · have hk : cfg.statusSpot < (delimOffsets 0 f).length := by omega
    have hp := List.getElem?_eq_getElem hk
    have hlt := delimOffsets_get_lt f _ _ hp
    have hpS := delimOffsets_mono_get f _ hf _ hk
    rw [hp] at hpS
    have hst := wf.status
    unfold fieldChar at hst
    rw [← hpS] at hst
    simp only at hst
    rw [voidStatus_eq cfg s0 f _ hc hp]
    by_cases h : (delimOffsets 0 f)[cfg.statusSpot] + 1 < f.length
    · rw [if_pos h, prefix_get f _ hf _ h, hst]; rfl
    · have hle := hf.length_le
      have hin : (delimOffsets 0 f)[cfg.statusSpot] + 1 < s0.nmeaReceived.length := by omega
      rw [if_neg h, List.getElem?_eq_getElem hin]
      have hne := hclean _ (List.getElem_mem hin)
      simp [hne]
  · exact voidStatus_of_count cfg s0 f hc

theorem sentenceDone_sentence {α : Type} (cfg : Config α) (s0 : RoboBrain α)
    (body : List Nat) (h1 h2 a b : Nat)
    (hcount : (delimOffsets 0 (36 :: body)).length = cfg.checksumSpot)
    (ha : hexVal h1 = some a) (hb : hexVal h2 = some b) (f : List Nat)
    (hf : f <+: sentence body h1 h2) :
    sentenceDone cfg (accumulated s0 f) =
      some (decide (f.length = (sentence body h1 h2).length)) := by
  have hdS := delimOffsets_sentence body h1 h2 a b ha hb
  have hlen : (sentence body h1 h2).length = (36 :: body).length + 3 := by simp [sentence]
  by_cases hc : (delimOffsets 0 f).length = cfg.checksumSpot + 1
  · have hk : cfg.checksumSpot < (delimOffsets 0 f).length := by omega
    have hpS := delimOffsets_mono_get f _ hf _ hk
    rw [hdS, List.getElem?_append_right (by rw [hcount]), hcount] at hpS
    simp only [Nat.sub_self, List.getElem?_cons_zero] at hpS
    rw [sentenceDone_eq cfg s0 f _ hc hpS, hlen]
  · rw [sentenceDone_of_count cfg s0 f hc]
    have hne : f.length ≠ (sentence body h1 h2).length := by
      intro he
      have := hf.eq_of_length he
      rw [this, hdS] at hc
      simp [hcount] at hc
    simp [hne]

theorem sentenceDone_wellFormed {α : Type} (cfg : Config α) (s0 : RoboBrain α)
    (body : List Nat) (h1 h2 : Nat) (wf : WellFormed cfg body h1 h2) (f : List Nat)
    (hf : f <+: sentence body h1 h2) :
    sentenceDone cfg (accumulated s0 f) =
      some (decide (f.length = (sentence body h1 h2).length)) := by
  obtain ⟨a, b, ha, hb, _⟩ := wf.hex
  exact sentenceDone_sentence cfg s0 body h1 h2 a b wf.count ha hb f hf

/-! ## Acceptance of a well-formed sentence -/

theorem navigateGPS_stores {α : Type} [LinearOrderedField α] [FloorRing α]
    (cfg : Config α) (atof : List Nat → α) (cosf : α → α) (s0 : RoboBrain α) (S : List Nat)
    (hfit : S.length ≤ s0.nmeaReceived.length)
    (hpfit : (delimOffsets 0 S).length ≤ s0.partitions.length) :
    ∀ bs fed l, fed ++ bs ++ [l] = S →
      (∀ g, g <+: bs → g ≠ [] →
        examine cfg atof cosf (accumulated s0 (fed ++ g)) =
          some (accumulated s0 (fed ++ g), false)) →
      navigateGPS cfg atof cosf (accumulated s0 fed) (bs ++ [l]) =
        (examine cfg atof cosf (accumulated s0 S)).map (fun r => (r.1, [])) := by
  intro bs
  induction bs with
  | nil =>
    intro fed l hS _
    simp only [List.append_nil] at hS
    have hlen : fed.length < s0.nmeaReceived.length := by
      have : S.length = fed.length + 1 := by rw [← hS]; simp
      omega
    have hpart : isDelim l = true → (delimOffsets 0 fed).length < s0.partitions.length := by
      intro hd
      rw [← hS, delimOffsets_snoc, if_pos hd] at hpfit
      simp only [List.length_append, List.length_singleton] at hpfit
      omega
    simp only [List.nil_append, navigateGPS,
      navigateGPSChar_accumulated cfg atof cosf s0 fed l hlen hpart, hS]
    cases examine cfg atof cosf (accumulated s0 S) with
    | none => rfl
    | some r =>
      obtain ⟨s1, b⟩ := r
      cases b <;> rfl
  | cons c cs ih =>
    intro fed l hS hall
    have hS2 : (fed ++ [c]) ++ cs ++ [l] = S := by simp [← hS]
    have hlen : fed.length < s0.nmeaReceived.length := by
      have : S.length = fed.length + (cs.length + 1 + 1) := by rw [← hS]; simp
      omega
    have hpart : isDelim c = true → (delimOffsets 0 fed).length < s0.partitions.length := by
      intro hd
      have : (delimOffsets 0 S).length = (delimOffsets 0 (fed ++ [c])).length +
          (delimOffsets (fed ++ [c]).length (cs ++ [l])).length := by
        rw [← hS2, List.append_assoc, delimOffsets_append, List.length_append]; simp
      rw [delimOffsets_snoc, if_pos hd] at this
      simp only [List.length_append, List.length_singleton] at this
      omega
    have h1 := hall [c] (by simp) (by simp)
    simp only [List.cons_append, navigateGPS,
      navigateGPSChar_accumulated cfg atof cosf s0 fed c hlen hpart, h1]
    apply ih (fed ++ [c]) l hS2
    intro g hg hne
    have := hall (c :: g) (by simpa using hg) (by simp)
    simpa using this

theorem navigateGPS_start {α : Type} [LinearOrderedField α] [FloorRing α]
    (cfg : Config α) (atof : List Nat → α) (cosf : α → α) (s0 : RoboBrain α) (t : List Nat)
    (hc : s0.charsReceived = 0) (hp : s0.partCount = 0)
    (hlen : 0 < s0.nmeaReceived.length) :
    navigateGPS cfg atof cosf s0 (36 :: t) =
      navigateGPS cfg atof cosf (accumulated s0 [36]) t := by
  simp only [navigateGPS, navigateGPSChar_start cfg atof cosf s0 hc hp hlen, examine_dollar]

/-- A well-formed sentence is stored whole, and the state in which its checksum is validated
is the one that holds it. -/
theorem navigateGPS_wellFormed_check {α : Type} [LinearOrderedField α] [FloorRing α]
    (cfg : Config α) (atof : List Nat → α) (cosf : α → α) (s0 : RoboBrain α)
    (body : List Nat) (h1 h2 : Nat) (wf : WellFormed cfg body h1 h2)
    (hc : s0.charsReceived = 0) (hp : s0.partCount = 0)
    (hfit : (sentence body h1 h2).length < s0.nmeaReceived.length)
    (hpfit : cfg.checksumSpot + 1 ≤ s0.partitions.length)
    (hclean : ∀ b ∈ s0.nmeaReceived, b ≠ 86) :
    navigateGPS cfg atof cosf s0 (sentence body h1 h2) =
      (checkSentence cfg atof cosf (accumulated s0 (sentence body h1 h2))).map
        (fun r => (r.1, [])) := by
  obtain ⟨a, b, ha, hb, _⟩ := wf.hex
  have hdS := delimOffsets_sentence body h1 h2 a b ha hb
  have hcount : (delimOffsets 0 (sentence body h1 h2)).length = cfg.checksumSpot + 1 := by
    rw [hdS]; simp [wf.count]
  have hchecks : ∀ f, f <+: sentence body h1 h2 →
      wrongType cfg (accumulated s0 f) = some false ∧
      voidStatus cfg (accumulated s0 f) = some false ∧
      sentenceDone cfg (accumulated s0 f) =
        some (decide (f.length = (sentence body h1 h2).length)) :=
    fun f hf => ⟨wrongType_wellFormed cfg s0 body h1 h2 wf f hf,
      voidStatus_wellFormed cfg s0 body h1 h2 wf hfit hclean f hf,
      sentenceDone_wellFormed cfg s0 body h1 h2 wf f hf⟩
  have hS : sentence body h1 h2 = [36] ++ (body ++ [42, h1]) ++ [h2] := by simp [sentence]
  have hrun := navigateGPS_stores cfg atof cosf s0 (sentence body h1 h2) (le_of_lt hfit)
    (by rw [hcount]; exact hpfit) (body ++ [42, h1]) [36] h2 hS.symm (by
      intro g hg hne
      have hpre : [36] ++ g <+: sentence body h1 h2 := by
        rw [hS, List.append_assoc]
        exact (List.prefix_append_right_inj _).mpr (hg.trans (List.prefix_append _ _))
      obtain ⟨hw, hv, hd⟩ := hchecks _ hpre
      have hlt : ([36] ++ g).length ≠ (sentence body h1 h2).length := by
        have := hg.length_le
        rw [hS]
        simp only [List.length_append, List.length_singleton, List.length_cons,
          List.length_nil] at this ⊢
        omega
      simp only [examine, hw, hv, hd, hlt, decide_False])
  have hstart := navigateGPS_start cfg atof cosf s0 (body ++ [42, h1, h2]) hc hp (by omega)
  have hfin : examine cfg atof cosf (accumulated s0 (sentence body h1 h2)) =
      checkSentence cfg atof cosf (accumulated s0 (sentence body h1 h2)) := by
    obtain ⟨hw, hv, hd⟩ := hchecks _ List.prefix_rfl
    simp only [examine, hw, hv, hd, decide_True]
  rw [← hfin, ← hrun]
  have e1 : sentence body h1 h2 = 36 :: (body ++ [42, h1, h2]) := by simp [sentence]
  have e2 : body ++ [42, h1] ++ [h2] = body ++ [42, h1, h2] := by simp
  rw [e1, hstart, e2]

theorem checkSentence_accumulated {α : Type} [LinearOrderedField α] [FloorRing α]
    (cfg : Config α) (atof : List Nat → α) (cosf : α → α) (s0 : RoboBrain α)
    (body : List Nat) (h1 h2 a b : Nat)
    (hcount : (delimOffsets 0 (36 :: body)).length = cfg.checksumSpot)
    (ha : hexVal h1 = some a) (hb : hexVal h2 = some b)
    (hfit : (sentence body h1 h2).length < s0.nmeaReceived.length) :
    checkSentence cfg atof cosf (accumulated s0 (sentence body h1 h2)) =
      if charToInt cfg (xorBytes body) = ((16 * a + b : Nat) : Int) then
        (parseRMC cfg atof cosf (stored s0 (sentence body h1 h2))).map (fun r => (r, true))
      else some ({ stored s0 (sentence body h1 h2) with charsReceived := 0, partCount := 0 },
        false) := by
  have hdS := delimOffsets_sentence body h1 h2 a b ha hb
  have hlen : (sentence body h1 h2).length = (36 :: body).length + 3 := by simp [sentence]
  have hget : (accumulated s0 (sentence body h1 h2)).partitions[cfg.checksumSpot]? =
      some (36 :: body).length := by
    rw [acc_partitions_get s0 _ _ (by rw [hdS]; simp [hcount]), hdS,
      List.getElem?_append_right (by rw [hcount]), hcount]
    simp
  have hbuf : (accumulated s0 (sentence body h1 h2)).nmeaReceived =
      sentence body h1 h2 ++ s0.nmeaReceived.drop (sentence body h1 h2).length := rfl
  have hin : (36 :: body).length + 3 < (accumulated s0 (sentence body h1 h2)).nmeaReceived.length := by
    rw [hbuf, List.length_append, List.length_drop]; omega
  have htake : (((accumulated s0 (sentence body h1 h2)).nmeaReceived.take
      (36 :: body).length).drop 1) = body := by
    rw [hbuf]
    unfold sentence
    rw [List.append_assoc, List.take_left' rfl]
    rfl
  have hset : (accumulated s0 (sentence body h1 h2)).nmeaReceived.set ((36 :: body).length + 3) 0 =
      (stored s0 (sentence body h1 h2)).nmeaReceived := by
    rw [hbuf, ← hlen]
    exact set_stored _ _ 0 hfit
  have hz1 := (hexVal_some h1 a ha).2.2.1
  have hz2 := (hexVal_some h2 b hb).2.2.1
  have hcstr : cstr (stored s0 (sentence body h1 h2)).nmeaReceived ((36 :: body).length + 1) =
      [h1, h2] := by
    have e : (stored s0 (sentence body h1 h2)).nmeaReceived =
        ((36 :: body) ++ [42]) ++ (h1 :: h2 :: 0 ::
          s0.nmeaReceived.drop (sentence body h1 h2 ++ [0]).length) := by
      simp [stored, sentence]
    rw [e]
    unfold cstr
    rw [List.drop_left' (by simp)]
    have b1 : (h1 != 0) = true := by simp [hz1]
    have b2 : (h2 != 0) = true := by simp [hz2]
    simp [List.takeWhile, b1, b2]
  unfold checkSentence
  rw [hget]
  simp only [hin, if_true, htake, hset, hcstr, strtol16_hex2 h1 h2 a b ha hb]
  rfl

theorem zeroDelims_stored {α : Type} (s0 : RoboBrain α) (S : List Nat) :
    zeroDelims S.length (stored s0 S).nmeaReceived =
      S.map (fun c => if c == 44 || c == 42 then 0 else c) ++
        0 :: s0.nmeaReceived.drop (S ++ [0]).length := by
  simp only [stored, zeroDelims, List.append_assoc]
  rw [List.take_left' rfl, List.drop_left' rfl]
  rfl

/-- What `parseRMC` reads for a field that lies before the checksum. -/
theorem stored_field {α : Type} (cfg : Config α) (s0 : RoboBrain α)
    (body : List Nat) (h1 h2 a b : Nat)
    (hcount : (delimOffsets 0 (36 :: body)).length = cfg.checksumSpot)
    (ha : hexVal h1 = some a) (hb : hexVal h2 = some b)
    (k : Nat) (hk : k ≤ cfg.checksumSpot) :
    ∃ p v, (stored s0 (sentence body h1 h2)).partitions[k]? = some p ∧
      cstrAt (zeroDelims (sentence body h1 h2).length
        (stored s0 (sentence body h1 h2)).nmeaReceived) (p + 1) =
          some (field (sentence body h1 h2) k) ∧
      (zeroDelims (sentence body h1 h2).length
        (stored s0 (sentence body h1 h2)).nmeaReceived)[p + 1]? = some v ∧
      (v = 83 ↔ fieldChar (sentence body h1 h2) k = some 83) ∧
      (v = 87 ↔ fieldChar (sentence body h1 h2) k = some 87) := by
  have hdS := delimOffsets_sentence body h1 h2 a b ha hb
  have hlen : (sentence body h1 h2).length = (36 :: body).length + 3 := by simp [sentence]
  have hkl : k < (delimOffsets 0 (sentence body h1 h2)).length := by
    rw [hdS]; simp [hcount]; omega
  have hp : (delimOffsets 0 (sentence body h1 h2))[k]? =
      some (delimOffsets 0 (sentence body h1 h2))[k] := List.getElem?_eq_getElem hkl
  have hple : (delimOffsets 0 (sentence body h1 h2))[k] ≤ (36 :: body).length := by
    have hm : (delimOffsets 0 (sentence body h1 h2))[k] ∈
        delimOffsets 0 (36 :: body) ++ [(36 :: body).length] := by
      rw [← hdS]; exact List.getElem_mem hkl
    rcases List.mem_append.mp hm with h | h
    · have hb := (delimOffsets_bound _ _ _ h).2
      rw [Nat.zero_add] at hb
      exact le_of_lt hb
    · rw [List.mem_singleton] at h
      exact le_of_eq h
  have hpart : (stored s0 (sentence body h1 h2)).partitions[k]? =
      some (delimOffsets 0 (sentence body h1 h2))[k] := by
    have : (stored s0 (sentence body h1 h2)).partitions =
        (accumulated s0 (sentence body h1 h2)).partitions := rfl
    rw [this, acc_partitions_get s0 _ _ hkl, hp]
  have hlt : (delimOffsets 0 (sentence body h1 h2))[k] + 1 < (sentence body h1 h2).length := by
    omega
  obtain ⟨v, hv, h83, h87⟩ := zeroed_get (sentence body h1 h2)
    (s0.nmeaReceived.drop (sentence body h1 h2 ++ [0]).length) _ hlt
  refine ⟨_, v, hpart, ?_, ?_, ?_, ?_⟩
  · have hzl : (delimOffsets 0 (sentence body h1 h2))[k] + 1 <
        (zeroDelims (sentence body h1 h2).length
          (stored s0 (sentence body h1 h2)).nmeaReceived).length := by
      rw [zeroDelims_stored]
      simp only [List.length_append, List.length_map, List.length_cons]
      omega
    unfold cstrAt
    rw [if_pos hzl, zeroDelims_stored, cstr_zeroed _ _ _ (le_of_lt hlt)]
    simp only [field, hp]
  · rw [zeroDelims_stored]; exact hv
  · rw [h83]; simp only [fieldChar, hp]
  · rw [h87]; simp only [fieldChar, hp]

theorem parseRMC_stored {α : Type} [LinearOrderedField α] [FloorRing α]
    (cfg : Config α) (atof : List Nat → α) (cosf : α → α) (s0 : RoboBrain α)
    (body : List Nat) (h1 h2 a b : Nat)
    (hcount : (delimOffsets 0 (36 :: body)).length = cfg.checksumSpot)
    (ha : hexVal h1 = some a) (hb : hexVal h2 = some b)
    (hcfg : FieldsBeforeChecksum cfg) :
    ∃ s1, parseRMC cfg atof cosf (stored s0 (sentence body h1 h2)) = some s1 ∧
      FixApplied cfg atof cosf s0 (sentence body h1 h2) s1 ∧
      s1.nmeaReceived = zeroDelims (sentence body h1 h2).length
        (stored s0 (sentence body h1 h2)).nmeaReceived ∧
      s1.partitions = (stored s0 (sentence body h1 h2)).partitions := by
  obtain ⟨hkLat, hkNs, hkLong, hkEw, hkHead⟩ := hcfg
  obtain ⟨pLat, _, hpLat, hsLat, _, _, _⟩ :=
    stored_field cfg s0 body h1 h2 a b hcount ha hb cfg.latSpot hkLat
  obtain ⟨pNs, ns, hpNs, _, hcNs, hns83, _⟩ :=
    stored_field cfg s0 body h1 h2 a b hcount ha hb cfg.nsSpot hkNs
  obtain ⟨pLong, _, hpLong, hsLong, _, _, _⟩ :=
    stored_field cfg s0 body h1 h2 a b hcount ha hb cfg.longSpot hkLong
  obtain ⟨pEw, ew, hpEw, _, hcEw, _, hew87⟩ :=
    stored_field cfg s0 body h1 h2 a b hcount ha hb cfg.ewSpot hkEw
  obtain ⟨pHead, _, hpHead, hsHead, _, _, _⟩ :=
    stored_field cfg s0 body h1 h2 a b hcount ha hb cfg.headingSpot hkHead
  have hcr : (stored s0 (sentence body h1 h2)).charsReceived = (sentence body h1 h2).length :=
    rfl
  have hle : (stored s0 (sentence body h1 h2)).charsReceived ≤
      (stored s0 (sentence body h1 h2)).nmeaReceived.length := by
    simp only [stored, accumulated, List.length_append]
    omega
  have hLat : (if ns = 83 then -toDecimalDegrees (atof (field (sentence body h1 h2) cfg.latSpot))
      else toDecimalDegrees (atof (field (sentence body h1 h2) cfg.latSpot))) =
      fixLat cfg atof (sentence body h1 h2) := by
    unfold fixLat
    by_cases h : ns = 83
    · rw [if_pos h, if_pos (hns83.mp h)]
    · rw [if_neg h, if_neg (fun h' => h (hns83.mpr h'))]
  have hLong : (if ew = 87 then
      -toDecimalDegrees (atof (field (sentence body h1 h2) cfg.longSpot))
      else toDecimalDegrees (atof (field (sentence body h1 h2) cfg.longSpot))) =
      fixLong cfg atof (sentence body h1 h2) := by
    unfold fixLong
    by_cases h : ew = 87
    · rw [if_pos h, if_pos (hew87.mp h)]
    · rw [if_neg h, if_neg (fun h' => h (hew87.mpr h'))]
  unfold parseRMC
  rw [if_pos hle]
  simp only [hcr, hpLat, hpNs, hpLong, hpEw, hpHead, hsLat, hcNs, hsLong, hcEw, hsHead,
    hLat, hLong]
  by_cases horig : s0.lat0 > 90 ∧ s0.long0 > 180
  · have horig2 : (stored s0 (sentence body h1 h2)).lat0 > 90 ∧
        (stored s0 (sentence body h1 h2)).long0 > 180 := horig
    rw [if_pos horig2]
    exact ⟨_, rfl, ⟨rfl, rfl, rfl, rfl, fun _ => ⟨rfl, rfl, rfl⟩, fun h => absurd horig h⟩,
      rfl, rfl⟩
  · have horig2 : ¬ ((stored s0 (sentence body h1 h2)).lat0 > 90 ∧
        (stored s0 (sentence body h1 h2)).long0 > 180) := horig
    rw [if_neg horig2]
    exact ⟨_, rfl, ⟨rfl, rfl, rfl, rfl, fun h => absurd h horig, fun _ => ⟨rfl, rfl, rfl⟩⟩,
      rfl, rfl⟩

/-- A well-formed sentence fed to an idle parser is accepted: `navigateGPS` reads it to its last
byte and applies the fix. -/
theorem navigateGPS_wellFormed {α : Type} [LinearOrderedField α] [FloorRing α]
    (cfg : Config α) (atof : List Nat → α) (cosf : α → α) (s0 : RoboBrain α)
    (body : List Nat) (h1 h2 : Nat) (wf : WellFormed cfg body h1 h2)
    (hcfg : FieldsBeforeChecksum cfg)
    (hc : s0.charsReceived = 0) (hp : s0.partCount = 0)
    (hfit : (sentence body h1 h2).length < s0.nmeaReceived.length)
    (hpfit : cfg.checksumSpot + 1 ≤ s0.partitions.length)
    (hclean : ∀ b ∈ s0.nmeaReceived, b ≠ 86) :
    ∃ s1, navigateGPS cfg atof cosf s0 (sentence body h1 h2) = some (s1, []) ∧
      FixApplied cfg atof cosf s0 (sentence body h1 h2) s1 ∧
      s1.nmeaReceived = zeroDelims (sentence body h1 h2).length
        (stored s0 (sentence body h1 h2)).nmeaReceived ∧
      s1.partitions = (stored s0 (sentence body h1 h2)).partitions := by
  obtain ⟨a, b, ha, hb, hx⟩ := wf.hex
  obtain ⟨s1, hs1, happ⟩ := parseRMC_stored cfg atof cosf s0 body h1 h2 a b wf.count ha hb hcfg
  have hsum : charToInt cfg (xorBytes body) = ((16 * a + b : Nat) : Int) := by
    rw [charToInt_ascii cfg _ (xorBytes_lt body wf.ascii), hx]
  refine ⟨s1, ?_, happ⟩
  rw [navigateGPS_wellFormed_check cfg atof cosf s0 body h1 h2 wf hc hp hfit hpfit hclean,
    checkSentence_accumulated cfg atof cosf s0 body h1 h2 a b wf.count ha hb hfit,
    if_pos hsum, hs1]
  rfl

theorem feed_of_navigateGPS {α : Type} [LinearOrderedField α] [FloorRing α]
    (cfg : Config α) (atof : List Nat → α) (cosf : α → α) (bs : List Nat) :
    ∀ s s1 : RoboBrain α, navigateGPS cfg atof cosf s bs = some (s1, []) →
      feed cfg atof cosf s bs = some s1 := by
  induction bs with
  | nil =>
    intro s s1 h
    simp only [navigateGPS, Option.some.injEq, Prod.mk.injEq, and_true] at h
    subst h; rfl
  | cons c cs ih =>
    intro s s1 h
    simp only [navigateGPS] at h
    simp only [feed]
    cases hstep : navigateGPSChar cfg atof cosf s c with
    | none => rw [hstep] at h; cases h
    | some r =>
      obtain ⟨s2, b⟩ := r
      rw [hstep] at h
      cases b with
      | true =>
        simp only [Option.some.injEq, Prod.mk.injEq] at h
        obtain ⟨h1, h2⟩ := h
        subst h1; subst h2
        rfl
      | false => exact ih s2 s1 h

/-! ## Claims on accepted sentences -/

/-- C5.  A well-formed sentence `$GPRMC,...*HH` (status `A`, 7-bit ASCII, `*` as delimiter number
`checksumSpot + 1`, `HH` the exclusive-or of the body) that fits the buffer
together with the NUL written behind it, fed to a parser with both counters 0
(an idle one in particular) whose buffer holds no `V` left from an earlier
sentence, is accepted: the call reads all its bytes, the fix is applied (the
origin is set if it was unset, otherwise the position is overwritten) and the
parser is idle again with both counters 0. -/
theorem wellFormed_sentence_accepted {α : Type} [LinearOrderedField α] [FloorRing α]
    (cfg : Config α) (atof : List Nat → α) (cosf : α → α) (s0 : RoboBrain α)
    (body : List Nat) (h1 h2 : Nat) (wf : WellFormed cfg body h1 h2)
    (hcfg : FieldsBeforeChecksum cfg)
    (hc : s0.charsReceived = 0) (hp : s0.partCount = 0)
    (hfit : (sentence body h1 h2).length < s0.nmeaReceived.length)
    (hpfit : cfg.checksumSpot + 1 ≤ s0.partitions.length)
    (hclean : ∀ b ∈ s0.nmeaReceived, b ≠ 86) :
    ∃ s1, navigateGPS cfg atof cosf s0 (sentence body h1 h2) = some (s1, []) ∧
      FixApplied cfg atof cosf s0 (sentence body h1 h2) s1 ∧
      s1.sentenceStart = false ∧ s1.charsReceived = 0 ∧ s1.partCount = 0 := by
  obtain ⟨s1, h, happ, _, _⟩ :=
    navigateGPS_wellFormed cfg atof cosf s0 body h1 h2 wf hcfg hc hp hfit hpfit hclean
  exact ⟨s1, h, happ, happ.1, happ.2.1, happ.2.2.1⟩

theorem wellFormed_sentence_accepted_witness :
    ∃ s1, navigateGPS (rmcConfig ℚ) atofDec (fun _ => 1) gpsBrain (sentence sampleBody 53 56) =
        some (s1, []) ∧
      FixApplied (rmcConfig ℚ) atofDec (fun _ => 1) gpsBrain (sentence sampleBody 53 56) s1 ∧
      s1.sentenceStart = false ∧ s1.charsReceived = 0 ∧ s1.partCount = 0 :=
  wellFormed_sentence_accepted (rmcConfig ℚ) atofDec (fun _ => 1) gpsBrain sampleBody 53 56
    ⟨by decide, by decide, by decide, ⟨5, 8, by decide, by decide, by decide⟩, by decide⟩
    (by unfold FieldsBeforeChecksum; decide) rfl rfl (by decide) (by decide) (by decide)

/-! ## What a round of the loop can change -/

theorem parseRMC_cases {α : Type} [LinearOrderedField α] [FloorRing α]
    (cfg : Config α) (atof : List Nat → α) (cosf : α → α) (s s1 : RoboBrain α)
    (h : parseRMC cfg atof cosf s = some s1) :
    ∃ latdd longdd : α,
      (s.lat0 > 90 ∧ s.long0 > 180 →
        s1.lat0 = latdd ∧ s1.long0 = longdd ∧ s1.pos = s.pos) ∧
      (¬ (s.lat0 > 90 ∧ s.long0 > 180) →
        s1.lat0 = s.lat0 ∧ s1.long0 = s.long0 ∧
        s1.pos = ⟨(longdd - s.long0) * cfg.re * cosf s.lat0 / 180,
                  (latdd - s.lat0) * cfg.re * cfg.PI / 180⟩) := by
  unfold parseRMC at h
  split at h
  · split at h
    · dsimp only at h
      split at h
      · rename_i latStr ns longStr ew headStr _ _ _ _ _
        refine ⟨if ns = 83 then -toDecimalDegrees (atof latStr) else toDecimalDegrees (atof latStr),
          if ew = 87 then -toDecimalDegrees (atof longStr) else toDecimalDegrees (atof longStr),
          ?_, ?_⟩
        · intro hu
          have hu2 := hu
          simp only [hu, and_self, if_true, Option.some.injEq] at h
          subst h
          exact ⟨rfl, rfl, rfl⟩
        · intro hu
          simp only [hu, if_false, Option.some.injEq] at h
          subst h
          exact ⟨rfl, rfl, rfl⟩
      · cases h
    · cases h
  · cases h

theorem storeChar_frame {α : Type} (s s1 : RoboBrain α) (ch : Nat)
    (h : storeChar s ch = some s1) :
    s1.lat0 = s.lat0 ∧ s1.long0 = s.long0 ∧ s1.pos = s.pos ∧ s1.heading = s.heading := by
  unfold storeChar at h
  split at h
  · dsimp only at h
    split at h
    · split at h
      · simp only [Option.some.injEq] at h; subst h; exact ⟨rfl, rfl, rfl, rfl⟩
      · cases h
    · simp only [Option.some.injEq] at h; subst h; exact ⟨rfl, rfl, rfl, rfl⟩
  · cases h

theorem checkSentence_origin {α : Type} [LinearOrderedField α] [FloorRing α]
    (cfg : Config α) (atof : List Nat → α) (cosf : α → α) (s s1 : RoboBrain α) (b : Bool)
    (h : checkSentence cfg atof cosf s = some (s1, b))
    (hset : ¬ (s.lat0 > 90 ∧ s.long0 > 180)) :
    s1.lat0 = s.lat0 ∧ s1.long0 = s.long0 := by
  unfold checkSentence at h
  split at h
  · cases h
  · rename_i p _
    split at h
    · dsimp only at h
      split at h
      · cases hp : parseRMC cfg atof cosf
            { s with sentenceStart := false, nmeaReceived := s.nmeaReceived.set (p + 3) 0 } with
        | none => rw [hp] at h; cases h
        | some r =>
          rw [hp] at h
          simp only [Option.map_some', Option.some.injEq, Prod.mk.injEq] at h
          obtain ⟨h, _⟩ := h
          subst h
          obtain ⟨_, _, _, hk⟩ := parseRMC_cases cfg atof cosf _ _ hp
          obtain ⟨e1, e2, _⟩ := hk hset
          exact ⟨e1, e2⟩
      · simp only [Option.some.injEq, Prod.mk.injEq] at h
        obtain ⟨h, _⟩ := h
        subst h
        exact ⟨rfl, rfl⟩
    · cases h

theorem examine_origin {α : Type} [LinearOrderedField α] [FloorRing α]
    (cfg : Config α) (atof : List Nat → α) (cosf : α → α) (s s1 : RoboBrain α) (b : Bool)
    (h : examine cfg atof cosf s = some (s1, b))
    (hset : ¬ (s.lat0 > 90 ∧ s.long0 > 180)) :
    s1.lat0 = s.lat0 ∧ s1.long0 = s.long0 := by
  unfold examine at h
  cases hw : wrongType cfg s with
  | none => rw [hw] at h; cases h
  | some bw =>
    rw [hw] at h
    cases bw with
    | true =>
      simp only [Option.some.injEq, Prod.mk.injEq] at h
      obtain ⟨h, _⟩ := h
      subst h
      exact ⟨rfl, rfl⟩
    | false =>
      simp only at h
      cases hv : voidStatus cfg s with
      | none => rw [hv] at h; cases h
      | some bv =>
        rw [hv] at h
        cases bv with
        | true =>
          simp only [Option.some.injEq, Prod.mk.injEq] at h
          obtain ⟨h, _⟩ := h
          subst h
          exact ⟨rfl, rfl⟩
        | false =>
          simp only at h
          cases hd : sentenceDone cfg s with
          | none => rw [hd] at h; cases h
          | some bd =>
            rw [hd] at h
            cases bd with
            | true => exact checkSentence_origin cfg atof cosf s s1 b h hset
            | false =>
              simp only [Option.some.injEq, Prod.mk.injEq] at h
              obtain ⟨h, _⟩ := h
              subst h
              exact ⟨rfl, rfl⟩

/-- A round of the loop leaves a set origin alone. -/
theorem navigateGPSChar_origin {α : Type} [LinearOrderedField α] [FloorRing α]
    (cfg : Config α) (atof : List Nat → α) (cosf : α → α) (s s1 : RoboBrain α) (ch : Nat)
    (b : Bool) (h : navigateGPSChar cfg atof cosf s ch = some (s1, b))
    (hset : ¬ (s.lat0 > 90 ∧ s.long0 > 180)) :
    s1.lat0 = s.lat0 ∧ s1.long0 = s.long0 := by
  simp only [navigateGPSChar] at h
  generalize hs0 : (if ch = 36 then { s with sentenceStart := true } else s) = s0 at h
  have h0l : s0.lat0 = s.lat0 := by rw [← hs0]; split <;> rfl
  have h0g : s0.long0 = s.long0 := by rw [← hs0]; split <;> rfl
  by_cases hss : s0.sentenceStart = false
  · rw [if_pos hss] at h
    simp only [Option.some.injEq, Prod.mk.injEq] at h
    obtain ⟨h, _⟩ := h
    subst h
    exact ⟨h0l, h0g⟩
  · rw [if_neg hss] at h
    cases hst : storeChar s0 ch with
    | none => rw [hst] at h; cases h
    | some s2 =>
      rw [hst] at h
      simp only at h
      have hf := storeChar_frame _ _ _ hst
      have hl : s2.lat0 = s.lat0 := hf.1.trans h0l
      have hg : s2.long0 = s.long0 := hf.2.1.trans h0g
      have := examine_origin cfg atof cosf s2 s1 b h (by rw [hl, hg]; exact hset)
      exact ⟨this.1.trans hl, this.2.trans hg⟩

theorem feed_origin {α : Type} [LinearOrderedField α] [FloorRing α]
    (cfg : Config α) (atof : List Nat → α) (cosf : α → α) (bs : List Nat) :
    ∀ s s1 : RoboBrain α, feed cfg atof cosf s bs = some s1 →
      ¬ (s.lat0 > 90 ∧ s.long0 > 180) → s1.lat0 = s.lat0 ∧ s1.long0 = s.long0 := by
  induction bs with
  | nil =>
    intro s s1 h _
    simp only [feed, Option.some.injEq] at h
    subst h
    exact ⟨rfl, rfl⟩
  | cons c cs ih =>
    intro s s1 h hset
    simp only [feed] at h
    cases hstep : navigateGPSChar cfg atof cosf s c with
    | none => rw [hstep] at h; cases h
    | some r =>
      obtain ⟨s2, b⟩ := r
      rw [hstep] at h
      simp only at h
      have h2 := navigateGPSChar_origin cfg atof cosf s s2 c b hstep hset
      have h3 := ih s2 s1 h (by rw [h2.1, h2.2]; exact hset)
      exact ⟨h3.1.trans h2.1, h3.2.trans h2.2⟩

/-! ## Decimal degrees and `atof` on digits -/

/-- The conversion of lines 177-179 on a coordinate `100 * D + M` with `0 ≤ M < 100`. -/
theorem toDecimalDegrees_deg_min {α : Type} [LinearOrderedField α] [FloorRing α]
    (D : Nat) (M : α) (h0 : 0 ≤ M) (h1 : M < 100) :
    toDecimalDegrees ((100 * D : Nat) + M) = (D : α) + M / 60 := by
  have hfl : ⌊((100 * D : Nat) : α) + M⌋ = (100 * D : Nat) + ⌊M⌋ := Int.floor_nat_add _ _
  have hM0 : 0 ≤ ⌊M⌋ := Int.floor_nonneg.mpr h0
  have hM1 : ⌊M⌋ < 100 := by
    have : ⌊M⌋ < ((100 : Int)) := Int.floor_lt.mpr (by exact_mod_cast h1)
    exact this
  have hq : ((((100 * D : Nat) : Int) + ⌊M⌋ : Int) : α) / 100 = (D : α) + ((⌊M⌋ : Int) : α) / 100 := by
    push_cast; ring
  have hfrac0 : (0 : α) ≤ ((⌊M⌋ : Int) : α) / 100 :=
    div_nonneg (by exact_mod_cast hM0) (by norm_num)
  have hfrac1 : ((⌊M⌋ : Int) : α) / 100 < 1 := by
    rw [div_lt_one (by norm_num)]
    exact_mod_cast hM1
  have htr : truncInt (((((100 * D : Nat) : Int) + ⌊M⌋ : Int) : α) / 100) = (D : Int) := by
    rw [hq]
    unfold truncInt
    have hnn : (0 : α) ≤ (D : α) + ((⌊M⌋ : Int) : α) / 100 :=
      add_nonneg (Nat.cast_nonneg D) hfrac0
    rw [if_pos hnn, Int.floor_nat_add]
    have : ⌊((⌊M⌋ : Int) : α) / 100⌋ = 0 := Int.floor_eq_zero_iff.mpr ⟨hfrac0, hfrac1⟩
    rw [this]; simp
  unfold toDecimalDegrees
  simp only [hfl, htr]
  push_cast
  ring

theorem takeWhile_all {β : Type} (p : β → Bool) (l : List β) (h : ∀ c ∈ l, p c = true) :
    l.takeWhile p = l ∧ l.dropWhile p = [] := by
  induction l with
  | nil => exact ⟨rfl, rfl⟩
  | cons c cs ih =>
    have hc := h c (by simp)
    have := ih (fun x hx => h x (by simp [hx]))
    simp [List.takeWhile, List.dropWhile, hc, this.1, this.2]

/-- On a run of decimal digits `atof` yields their value. -/
theorem atofDec_of_digits {α : Type} [Field α] (ds : List Nat)
    (h : ∀ c ∈ ds, isDigit c = true) : atofDec (α := α) ds = (decValue ds : α) := by
  have hsp : ds.dropWhile isSpace = ds := by
    cases ds with
    | nil => rfl
    | cons c cs =>
      have hc := h c (by simp)
      have : isSpace c = false := by
        simp only [isDigit, Bool.and_eq_true, decide_eq_true_eq] at hc
        simp only [isSpace, Bool.or_eq_false_iff, beq_eq_false_iff_ne, Bool.and_eq_false_iff,
          decide_eq_false_iff_not]
        exact ⟨by omega, Or.inr (by omega)⟩
      simp [List.dropWhile, this]
  have hsign : ds.head? ≠ some 45 ∧ ds.head? ≠ some 43 := by
    cases ds with
    | nil => exact ⟨by simp, by simp⟩
    | cons c cs =>
      have hc := h c (by simp)
      simp only [isDigit, Bool.and_eq_true, decide_eq_true_eq] at hc
      have h45 : c ≠ 45 := by omega
      have h43 : c ≠ 43 := by omega
      simp [h45, h43]
  obtain ⟨ht, hd⟩ := takeWhile_all isDigit ds h
  simp [atofDec, hsp, hsign.1, hsign.2, ht, hd, decValue]

/-! ## The origin and the position -/

theorem fixLat_whole {α : Type} [LinearOrderedField α] [FloorRing α] (cfg : Config α)
    (S ds : List Nat) (D : Nat) (hf : field S cfg.latSpot = ds)
    (hd : ∀ c ∈ ds, isDigit c = true) (hv : decValue ds = 100 * D) :
    fixLat cfg atofDec S = if fieldChar S cfg.nsSpot = some 83 then -(D : α) else (D : α) := by
  have h := toDecimalDegrees_deg_min (α := α) D 0 (le_refl _) (by norm_num)
  simp only [add_zero, zero_div] at h
  unfold fixLat
  rw [hf, atofDec_of_digits ds hd, hv, h]

theorem fixLong_whole {α : Type} [LinearOrderedField α] [FloorRing α] (cfg : Config α)
    (S ds : List Nat) (D : Nat) (hf : field S cfg.longSpot = ds)
    (hd : ∀ c ∈ ds, isDigit c = true) (hv : decValue ds = 100 * D) :
    fixLong cfg atofDec S = if fieldChar S cfg.ewSpot = some 87 then -(D : α) else (D : α) := by
  have h := toDecimalDegrees_deg_min (α := α) D 0 (le_refl _) (by norm_num)
  simp only [add_zero, zero_div] at h
  unfold fixLong
  rw [hf, atofDec_of_digits ds hd, hv, h]

/-- C8 (as amended).  Once the origin counts as set (`lat0 ≤ 90` or `long0 ≤ 180`), no sequence
of input bytes changes `lat0` or `long0`, whatever the sentences in it carry. -/
theorem origin_kept_once_set {α : Type} [LinearOrderedField α] [FloorRing α]
    (cfg : Config α) (atof : List Nat → α) (cosf : α → α) (bs : List Nat)
    (s s1 : RoboBrain α) (hset : ¬ (s.lat0 > 90 ∧ s.long0 > 180))
    (h : feed cfg atof cosf s bs = some s1) :
    s1.lat0 = s.lat0 ∧ s1.long0 = s.long0 :=
  feed_origin cfg atof cosf bs s s1 h hset

theorem origin_kept_once_set_witness :
    ∃ s1, feed (rmcConfig ℚ) atofDec (fun _ => 1) setBrain (sentence farBody 53 49) = some s1 ∧
      s1.lat0 = 40 ∧ s1.long0 = -105 := by
  obtain ⟨s1, h, _⟩ := navigateGPS_wellFormed (rmcConfig ℚ) atofDec (fun _ => 1) setBrain
    farBody 53 49
    ⟨by decide, by decide, by decide, ⟨5, 1, by decide, by decide, by decide⟩, by decide⟩
    (by unfold FieldsBeforeChecksum; decide) rfl rfl (by decide) (by decide) (by decide)
  have hf := feed_of_navigateGPS _ _ _ _ _ _ h
  exact ⟨s1, hf, origin_kept_once_set (rmcConfig ℚ) atofDec (fun _ => 1)
    (sentence farBody 53 49) setBrain s1
    (by show ¬ ((40 : ℚ) > 90 ∧ (-105 : ℚ) > 180); norm_num) hf⟩

/-- C8 (as stated) fails.  The first accepted sentence carries the latitude field 9100 and the
longitude field 18100: it sets the origin to (91, 181), which the test
`lat0 > 90 && long0 > 180` still takes for unset, and the next accepted
sentence overwrites the origin with (40, -105). -/
theorem origin_overwritten_counterexample :
    ∃ s1 s2, feed (rmcConfig ℚ) atofDec (fun _ => 1) gpsBrain (sentence farBody 53 49) = some s1 ∧
      s1.lat0 = 91 ∧ s1.long0 = 181 ∧
      feed (rmcConfig ℚ) atofDec (fun _ => 1) s1 (sentence nearBody 52 51) = some s2 ∧
      s2.lat0 = 40 ∧ s2.long0 = -105 := by
  obtain ⟨s1, h1, happ1, hbuf1, hpart1⟩ :=
    navigateGPS_wellFormed (rmcConfig ℚ) atofDec (fun _ => 1) gpsBrain farBody 53 49
      ⟨by decide, by decide, by decide, ⟨5, 1, by decide, by decide, by decide⟩, by decide⟩
      (by unfold FieldsBeforeChecksum; decide) rfl rfl (by decide) (by decide) (by decide)
  obtain ⟨_, hc1, hp1, _, hset1, _⟩ := happ1
  obtain ⟨hlat1, hlong1, _⟩ := hset1 (by show (100 : ℚ) > 90 ∧ (200 : ℚ) > 180; norm_num)
  have e1 : fixLat (rmcConfig ℚ) atofDec (sentence farBody 53 49) = 91 := by
    rw [fixLat_whole (rmcConfig ℚ) _ (bytes "9100") 91 (by decide) (by decide) (by decide),
      if_neg (by decide)]
    norm_num
  have e2 : fixLong (rmcConfig ℚ) atofDec (sentence farBody 53 49) = 181 := by
    rw [fixLong_whole (rmcConfig ℚ) _ (bytes "18100") 181 (by decide) (by decide) (by decide),
      if_neg (by decide)]
    norm_num
  rw [e1] at hlat1
  rw [e2] at hlong1
  obtain ⟨s2, h2, happ2, _, _⟩ :=
    navigateGPS_wellFormed (rmcConfig ℚ) atofDec (fun _ => 1) s1 nearBody 52 51
      ⟨by decide, by decide, by decide, ⟨4, 3, by decide, by decide, by decide⟩, by decide⟩
      (by unfold FieldsBeforeChecksum; decide) hc1 hp1
      (by rw [hbuf1]; decide) (by rw [hpart1]; decide) (by rw [hbuf1]; decide)
  obtain ⟨_, _, _, _, hset2, _⟩ := happ2
  obtain ⟨hlat2, hlong2, _⟩ := hset2 (by rw [hlat1, hlong1]; norm_num)
  have e3 : fixLat (rmcConfig ℚ) atofDec (sentence nearBody 52 51) = 40 := by
    rw [fixLat_whole (rmcConfig ℚ) _ (bytes "4000") 40 (by decide) (by decide) (by decide),
      if_neg (by decide)]
    norm_num
  have e4 : fixLong (rmcConfig ℚ) atofDec (sentence nearBody 52 51) = -105 := by
    rw [fixLong_whole (rmcConfig ℚ) _ (bytes "10500") 105 (by decide) (by decide) (by decide),
      if_pos (by decide)]
    norm_num
  exact ⟨s1, s2, feed_of_navigateGPS _ _ _ _ _ _ h1, hlat1, hlong1,
    feed_of_navigateGPS _ _ _ _ _ _ h2, hlat2.trans e3, hlong2.trans e4⟩

/-- C9.  When the origin is unset (`lat0 > 90` and `long0 > 180`) and a well-formed sentence is
accepted, `lat0` and `long0` become the latitude and longitude of that fix in
decimal degrees and `pos` is left as it was.  The branch that applies a fix
(`parseRMC`) leaves `pos` alone for every accepted sentence when the origin is
unset. -/
theorem first_fix_sets_origin {α : Type} [LinearOrderedField α] [FloorRing α]
    (cfg : Config α) (atof : List Nat → α) (cosf : α → α) (s0 : RoboBrain α)
    (body : List Nat) (h1 h2 : Nat) (wf : WellFormed cfg body h1 h2)
    (hcfg : FieldsBeforeChecksum cfg)
    (hc : s0.charsReceived = 0) (hp : s0.partCount = 0)
    (hfit : (sentence body h1 h2).length < s0.nmeaReceived.length)
    (hpfit : cfg.checksumSpot + 1 ≤ s0.partitions.length)
    (hclean : ∀ b ∈ s0.nmeaReceived, b ≠ 86)
    (hunset : s0.lat0 > 90 ∧ s0.long0 > 180) :
    (∃ s1, navigateGPS cfg atof cosf s0 (sentence body h1 h2) = some (s1, []) ∧
      s1.lat0 = fixLat cfg atof (sentence body h1 h2) ∧
      s1.long0 = fixLong cfg atof (sentence body h1 h2) ∧
      s1.pos = s0.pos) ∧
    (∀ s s1 : RoboBrain α, parseRMC cfg atof cosf s = some s1 →
      s.lat0 > 90 ∧ s.long0 > 180 → s1.pos = s.pos) := by
  constructor
  · obtain ⟨s1, h, happ, _, _⟩ :=
      navigateGPS_wellFormed cfg atof cosf s0 body h1 h2 wf hcfg hc hp hfit hpfit hclean
    obtain ⟨e1, e2, e3⟩ := happ.2.2.2.2.1 hunset
    exact ⟨s1, h, e1, e2, e3⟩
  · intro s s1 h hu
    obtain ⟨_, _, hk, _⟩ := parseRMC_cases cfg atof cosf s s1 h
    exact (hk hu).2.2

theorem first_fix_sets_origin_witness :
    (∃ s1, navigateGPS (rmcConfig ℚ) atofDec (fun _ => 1) gpsBrain (sentence nearBody 52 51) =
        some (s1, []) ∧
      s1.lat0 = fixLat (rmcConfig ℚ) atofDec (sentence nearBody 52 51) ∧
      s1.long0 = fixLong (rmcConfig ℚ) atofDec (sentence nearBody 52 51) ∧
      s1.pos = gpsBrain.pos) ∧
    (∀ s s1 : RoboBrain ℚ, parseRMC (rmcConfig ℚ) atofDec (fun _ => 1) s = some s1 →
      s.lat0 > 90 ∧ s.long0 > 180 → s1.pos = s.pos) :=
  first_fix_sets_origin (rmcConfig ℚ) atofDec (fun _ => 1) gpsBrain nearBody 52 51
    ⟨by decide, by decide, by decide, ⟨4, 3, by decide, by decide, by decide⟩, by decide⟩
    (by unfold FieldsBeforeChecksum; decide) rfl rfl (by decide) (by decide) (by decide)
    (by show (100 : ℚ) > 90 ∧ (200 : ℚ) > 180; norm_num)

/-- C10 (fails on the code).  Origin (0, 0) set, then the accepted sentence
`$GPRMC,1,A,0000,N,00100,E,0,90,1,0,E*50` (latitude 0, longitude 1 E), over the
reals with `PI = π` and `re = 6378137`: line 201 stores the easting
`(1 - 0) * re * cos 0 / 180 = 6378137 / 180`, without the factor `π` that the
northing of line 200 has, so the easting is not `(1 - 0) * re * cos 0 * π / 180`. -/
theorem easting_misses_pi :
    ∃ s1, navigateGPS { rmcConfig ℝ with PI := Real.pi } atofDec Real.cos
        (mkBrain 0 0 0 1 0 0 0 82 20 0) (sentence eastBody 53 48) = some (s1, []) ∧
      s1.pos.northing = (0 - 0) * 6378137 * Real.pi / 180 ∧
      s1.pos.easting = 6378137 / 180 ∧
      s1.pos.easting ≠ (1 - 0) * 6378137 * Real.cos 0 * Real.pi / 180 := by
  obtain ⟨s1, h, happ, _, _⟩ :=
    navigateGPS_wellFormed { rmcConfig ℝ with PI := Real.pi } atofDec Real.cos
      (mkBrain 0 0 0 1 0 0 0 82 20 0) eastBody 53 48
      ⟨by decide, by decide, by decide, ⟨5, 0, by decide, by decide, by decide⟩, by decide⟩
      (by unfold FieldsBeforeChecksum; decide) rfl rfl (by decide) (by decide) (by decide)
  obtain ⟨_, _, _, _, _, hset⟩ := happ
  obtain ⟨_, _, hpos⟩ := hset (by
    show ¬ ((0 : ℝ) > 90 ∧ (0 : ℝ) > 180)
    norm_num)
  have e1 : fixLat { rmcConfig ℝ with PI := Real.pi } atofDec (sentence eastBody 53 48) = 0 := by
    rw [fixLat_whole _ _ (bytes "0000") 0 (by decide) (by decide) (by decide),
      if_neg (by decide)]
    norm_num
  have e2 : fixLong { rmcConfig ℝ with PI := Real.pi } atofDec (sentence eastBody 53 48) = 1 := by
    rw [fixLong_whole _ _ (bytes "00100") 1 (by decide) (by decide) (by decide),
      if_neg (by decide)]
    norm_num
  have hre : ({ rmcConfig ℝ with PI := Real.pi } : Config ℝ).re = 6378137 := rfl
  have hpi : ({ rmcConfig ℝ with PI := Real.pi } : Config ℝ).PI = Real.pi := rfl
  have hl0 : (mkBrain (0 : ℝ) 0 0 1 0 0 0 82 20 0).lat0 = 0 := rfl
  have hg0 : (mkBrain (0 : ℝ) 0 0 1 0 0 0 82 20 0).long0 = 0 := rfl
  rw [e1, e2, hre, hpi, hl0, hg0] at hpos
  have hE : s1.pos.easting = 6378137 / 180 := by
    rw [hpos]; simp [Real.cos_zero]
  refine ⟨s1, h, ?_, hE, ?_⟩
  · rw [hpos]
  · rw [hE, Real.cos_zero]
    have hpi3 : (3 : ℝ) < Real.pi := Real.pi_gt_three
    intro hEq
    have : (6378137 : ℝ) / 180 < (1 - 0) * 6378137 * 1 * Real.pi / 180 := by
      have : (6378137 : ℝ) * 1 < 6378137 * Real.pi := by nlinarith
      have h180 : (0 : ℝ) < 180 := by norm_num
      calc (6378137 : ℝ) / 180 = 6378137 * 1 / 180 := by ring
        _ < 6378137 * Real.pi / 180 := div_lt_div_of_pos_right this h180
        _ = (1 - 0) * 6378137 * 1 * Real.pi / 180 := by ring
    rw [← hEq] at this
    exact lt_irrefl _ this

/-! ## A corrupted byte -/

theorem delimOffsets_replace (a b : List Nat) (c c' : Nat) (hc : isDelim c = false)
    (hc' : isDelim c' = false) (off : Nat) :
    delimOffsets off (a ++ c' :: b) = delimOffsets off (a ++ c :: b) := by
  rw [delimOffsets_append, delimOffsets_append]
  simp [delimOffsets, hc, hc']

theorem xorStep_lt (x b : Nat) : (x ^^^ b) % 256 < 256 := Nat.mod_lt _ (by decide)

theorem xorStep_eq (x b : Nat) (hx : x < 256) (hb : b < 256) : (x ^^^ b) % 256 = x ^^^ b := by
  have h : x ^^^ b < 2 ^ 8 := Nat.xor_lt_two_pow (by simpa using hx) (by simpa using hb)
  exact Nat.mod_eq_of_lt (by simpa using h)

theorem xorFold_lt (bs : List Nat) :
    ∀ x, x < 256 → bs.foldl (fun acc b => (acc ^^^ b) % 256) x < 256 := by
  induction bs with
  | nil => intro x hx; simpa using hx
  | cons c cs ih => intro x _; simp only [List.foldl_cons]; exact ih _ (xorStep_lt x c)

theorem xorFold_injective (bs : List Nat) (hbs : ∀ b ∈ bs, b < 256) :
    ∀ x y, x < 256 → y < 256 → x ≠ y →
      bs.foldl (fun acc b => (acc ^^^ b) % 256) x ≠
        bs.foldl (fun acc b => (acc ^^^ b) % 256) y := by
  induction bs with
  | nil => intro x y _ _ h; simpa using h
  | cons c cs ih =>
    intro x y hx hy hxy
    have hc : c < 256 := hbs c (by simp)
    simp only [List.foldl_cons]
    apply ih (fun b hb => hbs b (by simp [hb])) _ _ (xorStep_lt x c) (xorStep_lt y c)
    rw [xorStep_eq x c hx hc, xorStep_eq y c hy hc]
    intro h
    exact hxy (Nat.xor_left_inj.mp h)

/-- The exclusive-or of a body changes when one of its bytes is replaced by a different byte. -/
theorem xorBytes_replace (pre post : List Nat) (c c' : Nat) (hpost : ∀ b ∈ post, b < 256)
    (hc : c < 256) (hc' : c' < 256) (hne : c' ≠ c) :
    xorBytes (pre ++ c' :: post) ≠ xorBytes (pre ++ c :: post) := by
  unfold xorBytes
  simp only [List.foldl_append, List.foldl_cons]
  have hA : pre.foldl (fun acc b => (acc ^^^ b) % 256) 0 < 256 := xorFold_lt pre 0 (by decide)
  apply xorFold_injective post hpost _ _ (xorStep_lt _ _) (xorStep_lt _ _)
  rw [xorStep_eq _ c' hA hc', xorStep_eq _ c hA hc]
  intro h
  exact hne (Nat.xor_right_inj.mp h)

theorem charToInt_ne {α : Type} (cfg : Config α) (x x' : Nat) (hx : x < 128) (hx' : x' < 256)
    (hne : x' ≠ x) : charToInt cfg x' ≠ (x : Int) := by
  unfold charToInt
  split
  · rename_i h
    simp only [Bool.and_eq_true, decide_eq_true_eq] at h
    omega
  · omega

/-- C6.  In a well-formed, correctly checksummed sentence with a single `$`, one byte `c` of the
body that is not a delimiter is replaced by a different byte `c'` that is not
`,`, `*` or `$`.  Fed to a parser with empty counters (whatever its buffer
holds), the sentence is never accepted: the parser ends idle with both counters
0 and `pos`, `heading`, `lat0` and `long0` are unchanged. -/
theorem corrupted_sentence_rejected {α : Type} [LinearOrderedField α] [FloorRing α]
    (cfg : Config α) (atof : List Nat → α) (cosf : α → α) (s0 : RoboBrain α)
    (pre post : List Nat) (c c' h1 h2 : Nat)
    (wf : WellFormed cfg (pre ++ c :: post) h1 h2)
    (hdollar : 36 ∉ pre ++ c :: post)
    (hc : isDelim c = false)
    (hne : c' ≠ c) (hc' : c' ≠ 44 ∧ c' ≠ 42 ∧ c' ≠ 36) (hbyte : c' < 256)
    (hcr : s0.charsReceived = 0) (hpc : s0.partCount = 0)
    (hfit : (sentence (pre ++ c' :: post) h1 h2).length < s0.nmeaReceived.length)
    (hpfit : cfg.checksumSpot + 1 ≤ s0.partitions.length) :
    ∃ s1, feed cfg atof cosf s0 (sentence (pre ++ c' :: post) h1 h2) = some s1 ∧
      IdleFrame s0 s1 := by
  obtain ⟨a, b, ha, hb, hx⟩ := wf.hex
  have hd' : isDelim c' = false := by simp [isDelim, hc'.1, hc'.2.1]
  have hcount : (delimOffsets 0 (36 :: (pre ++ c' :: post))).length = cfg.checksumSpot := by
    rw [show 36 :: (pre ++ c' :: post) = (36 :: pre) ++ c' :: post from rfl,
      delimOffsets_replace (36 :: pre) post c c' hc hd' 0]
    exact wf.count
  have hdS := delimOffsets_sentence (pre ++ c' :: post) h1 h2 a b ha hb
  have hbody : ∀ x ∈ pre ++ c :: post, x < 128 := wf.ascii
  have hxor : xorBytes (pre ++ c' :: post) ≠ xorBytes (pre ++ c :: post) :=
    xorBytes_replace pre post c c'
      (fun x hxm => Nat.lt_trans (hbody x (by simp [hxm])) (by decide))
      (Nat.lt_trans (hbody c (by simp)) (by decide)) hbyte hne
  have hsum : charToInt cfg (xorBytes (pre ++ c' :: post)) ≠ ((16 * a + b : Nat) : Int) := by
    rw [hx]
    exact charToInt_ne cfg _ _ (xorBytes_lt _ hbody) (xorFold_lt _ 0 (by decide)) hxor
  have hlen : (sentence (pre ++ c' :: post) h1 h2).length =
      (pre ++ c' :: post).length + 4 := by
    simp only [sentence, List.length_append, List.length_cons, List.length_nil]
  have hstart := feed_start cfg atof cosf s0 ((pre ++ c' :: post) ++ [42, h1, h2]) hcr hpc
    (by omega)
  have hno : 36 ∉ (pre ++ c' :: post) ++ [42, h1, h2] := by
    have n1 := (hexVal_some h1 a ha).2.2.2.2.1
    have n2 := (hexVal_some h2 b hb).2.2.2.2.1
    have hpre : 36 ∉ pre := fun h => hdollar (by simp [h])
    have hpost : 36 ∉ post := fun h => hdollar (by simp [h])
    intro h
    simp only [List.mem_append, List.mem_cons, List.mem_singleton, List.not_mem_nil,
      or_false] at h
    rcases h with (h | h | h) | h | h | h
    · exact hpre h
    · exact hc'.2.2 h.symm
    · exact hpost h
    · omega
    · exact n1 h.symm
    · exact n2 h.symm
  have hacc := feed_accumulated cfg atof cosf s0 (sentence (pre ++ c' :: post) h1 h2)
    (le_of_lt hfit) (by rw [hdS]; simp [hcount]; exact hpfit)
    (fun f hf => voidStatus_some cfg s0 f (lt_of_le_of_lt hf.length_le hfit))
    (by
      intro f hf hdone
      rw [sentenceDone_sentence cfg s0 _ h1 h2 a b hcount ha hb f hf] at hdone
      simp only [Option.some.injEq, decide_eq_true_eq] at hdone
      have hfe := hf.eq_of_length hdone
      subst hfe
      rw [checkSentence_accumulated cfg atof cosf s0 _ h1 h2 a b hcount ha hb hfit,
        if_neg hsum]
      exact ⟨_, rfl, rfl, rfl, rfl, rfl, rfl, rfl, rfl⟩)
    ((pre ++ c' :: post) ++ [42, h1, h2]) [36] rfl hno
  obtain ⟨s1, hs1, hres⟩ := hacc
  refine ⟨s1, ?_, ?_⟩
  · rw [show sentence (pre ++ c' :: post) h1 h2 = 36 :: ((pre ++ c' :: post) ++ [42, h1, h2])
      from rfl, hstart]
    exact hs1
  · rcases hres with hres | ⟨_, hall⟩
    · exact hres
    · have hfalse := (hall _ List.prefix_rfl (by simp)).2.2
      rw [show [36] ++ ((pre ++ c' :: post) ++ [42, h1, h2]) =
        sentence (pre ++ c' :: post) h1 h2 from rfl,
        sentenceDone_sentence cfg s0 _ h1 h2 a b hcount ha hb _ List.prefix_rfl] at hfalse
      simp at hfalse

theorem corrupted_sentence_rejected_witness :
    ∃ s1, feed (rmcConfig ℚ) atofDec (fun _ => 1) gpsBrain
        (sentence (bytes "GPRMC,1,A,4" ++ 49 :: bytes "00,N,10500,W,0,90,1,0,E") 52 51) =
          some s1 ∧ IdleFrame gpsBrain s1 :=
  corrupted_sentence_rejected (rmcConfig ℚ) atofDec (fun _ => 1) gpsBrain
    (bytes "GPRMC,1,A,4") (bytes "00,N,10500,W,0,90,1,0,E") 48 49 52 51
    ⟨by decide, by decide, by decide, ⟨4, 3, by decide, by decide, by decide⟩, by decide⟩
    (by decide) (by decide) (by decide) (by decide) (by decide) rfl rfl (by decide) (by decide)

/-! ## The capacity of the sentence buffer -/

theorem examine_no_delims {α : Type} [LinearOrderedField α] [FloorRing α]
    (cfg : Config α) (atof : List Nat → α) (cosf : α → α) (s0 : RoboBrain α) (f : List Nat)
    (h0 : (delimOffsets 0 f).length = 0) :
    examine cfg atof cosf (accumulated s0 f) = some (accumulated s0 f, false) := by
  simp only [examine, wrongType_of_count cfg s0 f (by omega),
    voidStatus_of_count cfg s0 f (by omega), sentenceDone_of_count cfg s0 f (by omega)]

theorem storeChar_full {α : Type} (s0 : RoboBrain α) (fed : List Nat) (ch : Nat)
    (hfull : fed.length = s0.nmeaReceived.length) :
    storeChar (accumulated s0 fed) ch = none := by
  have hin : ¬ ((accumulated s0 fed).charsReceived < (accumulated s0 fed).nmeaReceived.length) := by
    simp only [accumulated, List.length_append, List.length_drop]; omega
  unfold storeChar
  rw [if_neg hin]

theorem navigateGPS_overflow {α : Type} [LinearOrderedField α] [FloorRing α]
    (cfg : Config α) (atof : List Nat → α) (cosf : α → α) (s0 : RoboBrain α) (k : Nat) :
    ∀ fed : List Nat, fed.length + k = s0.nmeaReceived.length →
      (delimOffsets 0 fed).length = 0 →
      navigateGPS cfg atof cosf (accumulated s0 fed) (List.replicate (k + 1) 65) = none := by
  induction k with
  | zero =>
    intro fed hlen _
    have h1 : (if (65 : Nat) = 36 then { accumulated s0 fed with sentenceStart := true }
        else accumulated s0 fed) = accumulated s0 fed := by
      rw [if_neg (by decide)]
    have hst : (accumulated s0 fed).sentenceStart = true := rfl
    have hfull := storeChar_full s0 fed 65 (by omega)
    simp only [List.replicate, navigateGPS, navigateGPSChar, h1, hst, hfull]
    simp
  | succ k ih =>
    intro fed hlen h0
    have h65 : isDelim 65 = false := by decide
    have h0' : (delimOffsets 0 (fed ++ [65])).length = 0 := by
      rw [delimOffsets_snoc, h65]; simpa using h0
    rw [List.replicate_succ]
    simp only [navigateGPS, navigateGPSChar_accumulated cfg atof cosf s0 fed 65 (by omega)
      (by simp [h65]), examine_no_delims cfg atof cosf s0 _ h0']
    exact ih (fed ++ [65]) (by simp; omega) h0'

/-- C3 (fails on the code).  Whatever the capacity `nmeaCap` of `nmeaReceived` is, a `$` followed
by `nmeaCap` bytes `A` makes `navigateGPS` store a byte at index `nmeaCap`, past
the end of the buffer: no test bounds `charsReceived`, and the assembly is not
reset.  In the model the call has no defined result. -/
theorem sentence_buffer_overflow {α : Type} [LinearOrderedField α] [FloorRing α]
    (cfg : Config α) (atof : List Nat → α) (cosf : α → α) (nmeaCap partCap : Nat) :
    navigateGPS cfg atof cosf (mkBrain 0 0 0 1 100 200 0 nmeaCap partCap 0)
      (36 :: List.replicate nmeaCap 65) = none := by
  have hcap : (mkBrain (0 : α) 0 0 1 100 200 0 nmeaCap partCap 0).nmeaReceived.length = nmeaCap :=
    List.length_replicate _ _
  cases nmeaCap with
  | zero =>
    have hst : storeChar ({ mkBrain (0 : α) 0 0 1 100 200 0 0 partCap 0 with
        sentenceStart := true }) 36 = none := by
      simp [storeChar, mkBrain]
    simp [navigateGPS, navigateGPSChar, hst]
  | succ n =>
    rw [navigateGPS_start cfg atof cosf _ _ rfl rfl (by rw [hcap]; omega)]
    exact navigateGPS_overflow cfg atof cosf _ n [36] (by rw [hcap]; simp; omega) (by decide)

/-! ## Steering control -/

/-- C14.  `control` is the reference `controlRef` (no write when `nowpoint = 0`; 150 and 150 when
`headingChange ≥ 300`; otherwise throttle 140 and steering
`150 + headingChange * 50 / 180`), and for a heading error in `(-180, 180]` that
steering value lies in `(100, 200]` and is the neutral 150 exactly when the
heading error is 0. -/
theorem control_eq_controlRef {α : Type} [LinearOrderedField α] (s : RoboBrain α) :
    control s = controlRef s ∧
    (∀ hc : α, -180 < hc → hc ≤ 180 →
      100 < 150 + hc * 50 / 180 ∧ 150 + hc * 50 / 180 ≤ 200 ∧
      (150 + hc * 50 / 180 = 150 ↔ hc = 0)) := by
  constructor
  · unfold control controlRef
    by_cases h0 : s.nowpoint = 0
    · simp [h0]
    · by_cases h3 : s.headingChange ≥ 300
      · have h3' : 300 ≤ s.headingChange := h3
        simp [h0, h3']
      · have h3' : ¬ 300 ≤ s.headingChange := h3
        simp only [h0, h3, h3', if_false]
        rw [add_comm]
  · intro hc hlo hhi
    refine ⟨?_, ?_, ?_⟩
    · have : -50 < hc * 50 / 180 := by
        rw [lt_div_iff₀ (by norm_num)]; linarith
      linarith
    · have : hc * 50 / 180 ≤ 50 := by
        rw [div_le_iff₀ (by norm_num)]; linarith
      linarith
    · constructor
      · intro h
        have h1 : hc * 50 / 180 = 0 := by linarith
        have h2 : hc * 50 = 0 := by
          rcases div_eq_zero_iff.mp h1 with h | h
          · exact h
          · norm_num at h
        rcases mul_eq_zero.mp h2 with h | h
        · exact h
        · norm_num at h
      · intro h; rw [h]; simp

theorem control_eq_controlRef_witness :
    control startedBrain = controlRef startedBrain ∧
    ((-180 : ℚ) < 90 ∧ (90 : ℚ) ≤ 180) ∧
    ((100 : ℚ) < 150 + 90 * 50 / 180 ∧ (150 : ℚ) + 90 * 50 / 180 ≤ 200 ∧
      ((150 : ℚ) + 90 * 50 / 180 = 150 ↔ (90 : ℚ) = 0)) :=
  ⟨(control_eq_controlRef startedBrain).1, ⟨by norm_num, by norm_num⟩,
    (control_eq_controlRef startedBrain).2 90 (by norm_num) (by norm_num)⟩

/-! ## Odometry -/

theorem tickDelta_eq (count old : Nat) :
    (((count % 2 ^ 32 + 2 ^ 32 - old % 2 ^ 32) % 2 ^ 32 : Nat) : Int) =
      ((count : Int) - (old : Int)) % 2 ^ 32 := by
  have h : (2 : Nat) ^ 32 = 4294967296 := by norm_num
  have h' : (2 : Int) ^ 32 = 4294967296 := by norm_num
  rw [h, h']
  omega

/-- C15.  `navigateOdometer` stores the new count and moves the position by the tick delta
`(count - wheelCount) mod 2^32`: at heading 0, with `sin 0 = 0` and
`cos 0 = 1`, the easting is unchanged and the northing grows by
`wheelRadius * (PI / 2) * delta`, which is positive when `wheelRadius`, `PI`
and the delta are. -/
theorem odometer_north {α : Type} [LinearOrderedField α] (cfg : Config α) (sinf cosf : α → α)
    (ts dtOdo : α) (count : Nat) (s : RoboBrain α)
    (hheading : s.heading = 0) (hsin : sinf 0 = 0) (hcos : cosf 0 = 1) :
    (navigateOdometer cfg sinf cosf ts count dtOdo s).wheelCount = count % 2 ^ 32 ∧
    (navigateOdometer cfg sinf cosf ts count dtOdo s).pos.easting = s.pos.easting ∧
    (navigateOdometer cfg sinf cosf ts count dtOdo s).pos.northing =
      s.pos.northing +
        cfg.wheelRadius * (cfg.PI / 2) *
          (((((count : Int) - (s.wheelCount : Int)) % 2 ^ 32 : Int)) : α) ∧
    (0 < cfg.wheelRadius → 0 < cfg.PI →
      0 < ((count : Int) - (s.wheelCount : Int)) % 2 ^ 32 →
      s.pos.northing < (navigateOdometer cfg sinf cosf ts count dtOdo s).pos.northing) := by
  have hd := tickDelta_eq count s.wheelCount
  have hcast : (((count % 2 ^ 32 + 2 ^ 32 - s.wheelCount % 2 ^ 32) % 2 ^ 32 : Nat) : α) =
      (((((count : Int) - (s.wheelCount : Int)) % 2 ^ 32 : Int)) : α) := by
    rw [← hd, Int.cast_natCast]
  have hN : (navigateOdometer cfg sinf cosf ts count dtOdo s).pos.northing =
      s.pos.northing +
        cfg.wheelRadius * (cfg.PI / 2) *
          (((((count : Int) - (s.wheelCount : Int)) % 2 ^ 32 : Int)) : α) := by
    simp only [navigateOdometer, hheading, zero_mul, zero_div, hcos, one_mul]
    rw [hcast]
  refine ⟨rfl, ?_, hN, ?_⟩
  · simp only [navigateOdometer, hheading, zero_mul, zero_div, hsin, add_zero]
  · intro hr hpi hpos
    rw [hN]
    have h1 : (0 : α) < (((((count : Int) - (s.wheelCount : Int)) % 2 ^ 32 : Int)) : α) := by
      exact_mod_cast hpos
    have h2 : 0 < cfg.wheelRadius * (cfg.PI / 2) := mul_pos hr (by linarith)
    have := mul_pos h2 h1
    linarith

theorem odometer_north_witness :
    (navigateOdometer (rmcConfig ℚ) (fun _ => 0) (fun _ => 1) 0 5 0 gpsBrain).wheelCount =
      5 % 2 ^ 32 ∧
    (navigateOdometer (rmcConfig ℚ) (fun _ => 0) (fun _ => 1) 0 5 0 gpsBrain).pos.easting =
      gpsBrain.pos.easting ∧
    (navigateOdometer (rmcConfig ℚ) (fun _ => 0) (fun _ => 1) 0 5 0 gpsBrain).pos.northing =
      gpsBrain.pos.northing +
        (rmcConfig ℚ).wheelRadius * ((rmcConfig ℚ).PI / 2) *
          (((((5 : Nat) : Int) - (gpsBrain.wheelCount : Int)) % 2 ^ 32 : Int) : ℚ) ∧
    (0 < (rmcConfig ℚ).wheelRadius → 0 < (rmcConfig ℚ).PI →
      0 < (((5 : Nat) : Int) - (gpsBrain.wheelCount : Int)) % 2 ^ 32 →
      gpsBrain.pos.northing <
        (navigateOdometer (rmcConfig ℚ) (fun _ => 0) (fun _ => 1) 0 5 0
          gpsBrain).pos.northing) :=
  odometer_north (rmcConfig ℚ) (fun _ => 0) (fun _ => 1) 0 0 5 gpsBrain
    (by decide) rfl rfl

/-! ## Waypoint sequencing -/

theorem guide_started_cases {α : Type} [LinearOrderedField α] (cfg : Config α)
    (bearing : waypoint α → α) (gz : Int) (button : Bool) (s : RoboBrain α)
    (h1 : 1 ≤ s.nowpoint) (h2 : s.nowpoint < wpcount) :
    ∃ w wPrev s1, idx (waypoints α) s.nowpoint = some w ∧
      idx (waypoints α) (s.nowpoint - 1) = some wPrev ∧
      guide cfg bearing gz button s = some s1 ∧
      (dot (w.sub wPrev) (w.sub s.pos) < 0 → s1.nowpoint = s.nowpoint + 1) ∧
      (¬ dot (w.sub wPrev) (w.sub s.pos) < 0 → s1.nowpoint = s.nowpoint) ∧
      s1.ofBuffer = s.ofBuffer ∧ s1.bufferSpot = s.bufferSpot ∧ s1.offSet = s.offSet := by
  obtain ⟨w, hw⟩ := idx_waypoints_some (α := α) s.nowpoint (by omega) h2
  obtain ⟨wp, hwp⟩ := idx_waypoints_some (α := α) (s.nowpoint - 1) (by omega) (by omega)
  have hne : s.nowpoint ≠ 0 := by omega
  have hmain : ∃ s1, guide cfg bearing gz button s = some s1 ∧
      (dot (w.sub wp) (w.sub s.pos) < 0 → s1.nowpoint = s.nowpoint + 1) ∧
      (¬ dot (w.sub wp) (w.sub s.pos) < 0 → s1.nowpoint = s.nowpoint) ∧
      s1.ofBuffer = s.ofBuffer ∧ s1.bufferSpot = s.bufferSpot ∧ s1.offSet = s.offSet := by
    unfold guide
    simp only [hne, if_false, hw, hwp]
    by_cases hd : dot (w.sub wp) (w.sub s.pos) < 0
    · simp only [hd, if_true]
      by_cases hge : s.nowpoint + 1 ≥ wpcount
      · simp only [hge, if_true]
        exact ⟨_, rfl, fun _ => rfl, fun h => absurd trivial h, rfl, rfl, rfl⟩
      · simp only [hge, if_false]
        obtain ⟨w1, hw1⟩ := idx_waypoints_some (α := α) (s.nowpoint + 1) (by omega) (by omega)
        simp only [hw1]
        exact ⟨_, rfl, fun _ => rfl, fun h => absurd trivial h, rfl, rfl, rfl⟩
    · simp only [hd, if_false]
      have hge : ¬ s.nowpoint ≥ wpcount := by omega
      simp only [hge, if_false, hw]
      exact ⟨_, rfl, fun h => absurd h (by simp), fun _ => rfl, rfl, rfl, rfl⟩
  obtain ⟨s1, hg, r⟩ := hmain
  exact ⟨w, wp, s1, hw, hwp, hg, r⟩

/-- C16.  With a started navigator at waypoint index `i`, `1 ≤ i < wpcount`, and position `p`,
`guide` returns and leaves the index `i + 1` if and only if
`dot (waypoints[i] - waypoints[i-1]) (waypoints[i] - p) < 0`; otherwise the index
stays `i`.  The index never grows by more than one in a call. -/
theorem guide_advance_iff {α : Type} [LinearOrderedField α] (cfg : Config α)
    (bearing : waypoint α → α) (gz : Int) (button : Bool) (s : RoboBrain α)
    (h1 : 1 ≤ s.nowpoint) (h2 : s.nowpoint < wpcount) :
    ∃ w wPrev s1, idx (waypoints α) s.nowpoint = some w ∧
      idx (waypoints α) (s.nowpoint - 1) = some wPrev ∧
      guide cfg bearing gz button s = some s1 ∧
      (s1.nowpoint = s.nowpoint + 1 ↔ dot (w.sub wPrev) (w.sub s.pos) < 0) ∧
      (s1.nowpoint = s.nowpoint ↔ ¬ dot (w.sub wPrev) (w.sub s.pos) < 0) ∧
      s1.nowpoint ≤ s.nowpoint + 1 := by
  obtain ⟨w, wp, s1, hw, hwp, hg, hadv, hstay, _⟩ :=
    guide_started_cases cfg bearing gz button s h1 h2
  refine ⟨w, wp, s1, hw, hwp, hg, ?_, ?_, ?_⟩
  · constructor
    · intro h
      by_contra hd
      have := hstay hd
      omega
    · exact hadv
  · constructor
    · intro h hd
      have := hadv hd
      omega
    · exact hstay
  · by_cases hd : dot (w.sub wp) (w.sub s.pos) < 0
    · rw [hadv hd]
    · rw [hstay hd]; omega

theorem guide_advance_iff_witness :
    ∃ w wPrev s1, idx (waypoints ℚ) finishingBrain.nowpoint = some w ∧
      idx (waypoints ℚ) (finishingBrain.nowpoint - 1) = some wPrev ∧
      guide (rmcConfig ℚ) (fun _ => 0) 0 false finishingBrain = some s1 ∧
      (s1.nowpoint = finishingBrain.nowpoint + 1 ↔
        dot (w.sub wPrev) (w.sub finishingBrain.pos) < 0) ∧
      (s1.nowpoint = finishingBrain.nowpoint ↔
        ¬ dot (w.sub wPrev) (w.sub finishingBrain.pos) < 0) ∧
      s1.nowpoint ≤ finishingBrain.nowpoint + 1 :=
  guide_advance_iff (rmcConfig ℚ) (fun _ => 0) 0 false finishingBrain (by decide) (by decide)

theorem fillBuffer_nowpoint {α : Type} (gz : Int) (s s1 : RoboBrain α)
    (h : fillBuffer gz s = some s1) : s1.nowpoint = s.nowpoint := by
  unfold fillBuffer at h
  split at h
  · dsimp only at h
    simp only [Option.some.injEq] at h
    subst h
    split <;> rfl
  · cases h

theorem guide_step_nowpoint {α : Type} [LinearOrderedField α] (cfg : Config α)
    (bearing : waypoint α → α) (gz : Int) (button : Bool) (s s1 : RoboBrain α)
    (h : guide cfg bearing gz button s = some s1) :
    s.nowpoint ≤ s1.nowpoint ∧ s1.nowpoint ≤ s.nowpoint + 1 ∧
    (1 ≤ s.nowpoint →
      s1.ofBuffer = s.ofBuffer ∧ s1.bufferSpot = s.bufferSpot ∧ s1.offSet = s.offSet) := by
  by_cases h0 : s.nowpoint = 0
  · unfold guide at h
    rw [if_pos h0] at h
    cases hf : fillBuffer gz s with
    | none => rw [hf] at h; cases h
    | some s2 =>
      rw [hf] at h
      have hn := fillBuffer_nowpoint gz s s2 hf
      cases button with
      | true =>
        simp only [if_true, Option.some.injEq] at h
        subst h
        exact ⟨by simp [h0], by simp [h0], fun h1 => by omega⟩
      | false =>
        simp only [Bool.false_eq_true, if_false, Option.some.injEq] at h
        subst h
        exact ⟨by omega, by omega, fun h1 => by omega⟩
  · by_cases hlt : s.nowpoint < wpcount
    · by_cases h1 : 1 ≤ s.nowpoint
      · obtain ⟨w, wp, s2, _, _, hg, hadv, hstay, e1, e2, e3⟩ :=
          guide_started_cases cfg bearing gz button s h1 hlt
        rw [hg] at h
        simp only [Option.some.injEq] at h
        subst h
        by_cases hd : dot (w.sub wp) (w.sub s.pos) < 0
        · rw [hadv hd]; exact ⟨by omega, by omega, fun _ => ⟨e1, e2, e3⟩⟩
        · rw [hstay hd]; exact ⟨by omega, by omega, fun _ => ⟨e1, e2, e3⟩⟩
      · exfalso
        have hneg : ¬ (0 ≤ s.nowpoint) := by omega
        unfold guide at h
        simp [h0, idx, hneg] at h
    · exfalso
      have hnone : idx (waypoints α) s.nowpoint = none :=
        idx_waypoints_none _ (by omega)
      unfold guide at h
      simp [h0, hnone] at h

/-- C13.  Every call of `guide` that returns leaves `nowpoint` at its old value or one above
it, and from a started state (`nowpoint ≥ 1`) it leaves the calibration members
`ofBuffer`, `bufferSpot` and `offSet` alone; so over any sequence of calls a
started navigator stays started and is never calibrated again.  While a
waypoint is active the call does return. -/
theorem guide_nowpoint_monotone {α : Type} [LinearOrderedField α] (cfg : Config α)
    (bearing : waypoint α → α) :
    (∀ (gz : Int) (button : Bool) (s s1 : RoboBrain α),
      guide cfg bearing gz button s = some s1 →
      s.nowpoint ≤ s1.nowpoint ∧ s1.nowpoint ≤ s.nowpoint + 1 ∧
      (1 ≤ s.nowpoint →
        s1.ofBuffer = s.ofBuffer ∧ s1.bufferSpot = s.bufferSpot ∧ s1.offSet = s.offSet)) ∧
    (∀ (inputs : List (Int × Bool)) (s s1 : RoboBrain α),
      guideRun cfg bearing inputs s = some s1 → 1 ≤ s.nowpoint →
      s.nowpoint ≤ s1.nowpoint ∧ s1.nowpoint ≠ 0 ∧
      s1.ofBuffer = s.ofBuffer ∧ s1.bufferSpot = s.bufferSpot ∧ s1.offSet = s.offSet) ∧
    (∀ (gz : Int) (button : Bool) (s : RoboBrain α), 1 ≤ s.nowpoint → s.nowpoint < wpcount →
      ∃ s1, guide cfg bearing gz button s = some s1) := by
  refine ⟨fun gz button s s1 h => guide_step_nowpoint cfg bearing gz button s s1 h, ?_, ?_⟩
  · intro inputs
    induction inputs with
    | nil =>
      intro s s1 h h1
      simp only [guideRun, Option.some.injEq] at h
      subst h
      exact ⟨le_refl _, by omega, rfl, rfl, rfl⟩
    | cons x rest ih =>
      intro s s1 h h1
      obtain ⟨gz, button⟩ := x
      simp only [guideRun] at h
      cases hg : guide cfg bearing gz button s with
      | none => rw [hg] at h; cases h
      | some s2 =>
        rw [hg] at h
        obtain ⟨a1, _, a3⟩ := guide_step_nowpoint cfg bearing gz button s s2 hg
        obtain ⟨e1, e2, e3⟩ := a3 h1
        obtain ⟨b1, b2, b3, b4, b5⟩ := ih s2 s1 h (by omega)
        exact ⟨by omega, b2, b3.trans e1, b4.trans e2, b5.trans e3⟩
  · intro gz button s h1 h2
    obtain ⟨_, _, s1, _, _, hg, _⟩ := guide_started_cases cfg bearing gz button s h1 h2
    exact ⟨s1, hg⟩

theorem guide_nowpoint_monotone_witness :
    ∃ s1, guide (rmcConfig ℚ) (fun _ => 0) 0 false startedBrain = some s1 ∧
      startedBrain.nowpoint ≤ s1.nowpoint ∧ s1.nowpoint ≤ startedBrain.nowpoint + 1 ∧
      s1.ofBuffer = startedBrain.ofBuffer ∧ s1.bufferSpot = startedBrain.bufferSpot ∧
      s1.offSet = startedBrain.offSet := by
  obtain ⟨s1, h⟩ := (guide_nowpoint_monotone (rmcConfig ℚ) (fun _ => 0)).2.2 0 false
    startedBrain (by decide) (by decide)
  obtain ⟨a, b, c⟩ := (guide_nowpoint_monotone (rmcConfig ℚ) (fun _ => 0)).1 0 false
    startedBrain s1 h
  exact ⟨s1, h, a, b, c (by decide)⟩

/-- C20 (fails on the code).  A started navigator at waypoint 1 with heading -1000 and bearing 0:
the raw difference 1000 is wrapped once, `guide` stores `headingChange = 640`
with the waypoint still active, and `control` takes the branch
`headingChange >= 300` and writes the neutral 150 to throttle and steering. -/
theorem wound_heading_stops_vehicle :
    (guide (rmcConfig ℚ) (fun _ => 0) 0 false woundBrain).map
        (fun s1 => (s1.nowpoint, s1.headingChange, control s1)) =
      some (1, 640, some (150, 150)) ∧
    (1 : Int) < wpcount ∧ ¬ ((640 : ℚ) < 300) := by
  refine ⟨?_, by decide, by norm_num⟩
  simp [guide, woundBrain, mkBrain, idx, waypoints, dot, waypoint.sub, wrapHeading, wpcount,
    control]
  norm_num

/-! ## Bytes outside a sentence, and the idle invariant -/

theorem navigateGPS_skip {α : Type} [LinearOrderedField α] [FloorRing α]
    (cfg : Config α) (atof : List Nat → α) (cosf : α → α) (bs : List Nat) :
    ∀ (s : RoboBrain α) (S : List Nat), s.sentenceStart = false → 36 ∉ bs →
      navigateGPS cfg atof cosf s (bs ++ S) = navigateGPS cfg atof cosf s S := by
  induction bs with
  | nil => intro s S _ _; rfl
  | cons c cs ih =>
    intro s S hs hn
    have hc : c ≠ 36 := fun h => hn (by simp [h])
    have hcs : 36 ∉ cs := fun h => hn (by simp [h])
    simp only [List.cons_append, navigateGPS, navigateGPSChar_idle cfg atof cosf s c hs hc]
    exact ih s S hs hcs

/-- C12.  Bytes without a `$`, however many, leave an idle parser in exactly the state it was in
(a call of `navigateGPS` reads them all), and whatever is fed after them is
processed as if they had never been received. -/
theorem idle_ignores_bytes {α : Type} [LinearOrderedField α] [FloorRing α]
    (cfg : Config α) (atof : List Nat → α) (cosf : α → α) (s : RoboBrain α) (bs : List Nat)
    (hidle : s.sentenceStart = false) (hno : 36 ∉ bs) :
    navigateGPS cfg atof cosf s bs = some (s, []) ∧
    feed cfg atof cosf s bs = some s ∧
    (∀ S, navigateGPS cfg atof cosf s (bs ++ S) = navigateGPS cfg atof cosf s S) ∧
    (∀ S, feed cfg atof cosf s (bs ++ S) = feed cfg atof cosf s S) := by
  have hf := feed_idle cfg atof cosf bs s hidle hno
  refine ⟨?_, hf, fun S => navigateGPS_skip cfg atof cosf bs s S hidle hno, ?_⟩
  · have := navigateGPS_skip cfg atof cosf bs s [] hidle hno
    rw [List.append_nil] at this
    rw [this]; rfl
  · intro S
    exact feed_append cfg atof cosf bs S s s hf

theorem idle_ignores_bytes_witness :
    navigateGPS (rmcConfig ℚ) atofDec (fun _ => 1) gpsBrain (List.replicate 100 65) =
      some (gpsBrain, []) ∧
    feed (rmcConfig ℚ) atofDec (fun _ => 1) gpsBrain (List.replicate 100 65) = some gpsBrain ∧
    (∀ S, navigateGPS (rmcConfig ℚ) atofDec (fun _ => 1) gpsBrain (List.replicate 100 65 ++ S) =
      navigateGPS (rmcConfig ℚ) atofDec (fun _ => 1) gpsBrain S) ∧
    (∀ S, feed (rmcConfig ℚ) atofDec (fun _ => 1) gpsBrain (List.replicate 100 65 ++ S) =
      feed (rmcConfig ℚ) atofDec (fun _ => 1) gpsBrain S) :=
  idle_ignores_bytes (rmcConfig ℚ) atofDec (fun _ => 1) gpsBrain (List.replicate 100 65)
    rfl (by decide)

theorem storeChar_start {α : Type} (s s1 : RoboBrain α) (ch : Nat)
    (h : storeChar s ch = some s1) : s1.sentenceStart = s.sentenceStart := by
  unfold storeChar at h
  split at h
  · dsimp only at h
    split at h
    · split at h
      · simp only [Option.some.injEq] at h; subst h; rfl
      · cases h
    · simp only [Option.some.injEq] at h; subst h; rfl
  · cases h

theorem checkSentence_counters {α : Type} [LinearOrderedField α] [FloorRing α]
    (cfg : Config α) (atof : List Nat → α) (cosf : α → α) (s s1 : RoboBrain α) (b : Bool)
    (h : checkSentence cfg atof cosf s = some (s1, b)) :
    s1.sentenceStart = false ∧ s1.charsReceived = 0 ∧ s1.partCount = 0 := by
  unfold checkSentence at h
  split at h
  · cases h
  · rename_i p _
    split at h
    · dsimp only at h
      split at h
      · cases hp : parseRMC cfg atof cosf
            { s with sentenceStart := false, nmeaReceived := s.nmeaReceived.set (p + 3) 0 } with
        | none => rw [hp] at h; cases h
        | some r =>
          rw [hp] at h
          simp only [Option.map_some', Option.some.injEq, Prod.mk.injEq] at h
          obtain ⟨h, _⟩ := h
          subst h
          unfold parseRMC at hp
          split at hp
          · split at hp
            · dsimp only at hp
              split at hp
              · split at hp
                · simp only [Option.some.injEq] at hp; subst hp; exact ⟨rfl, rfl, rfl⟩
                · simp only [Option.some.injEq] at hp; subst hp; exact ⟨rfl, rfl, rfl⟩
              · cases hp
            · cases hp
          · cases hp
      · simp only [Option.some.injEq, Prod.mk.injEq] at h
        obtain ⟨h, _⟩ := h
        subst h
        exact ⟨rfl, rfl, rfl⟩
    · cases h

theorem examine_idle_counters {α : Type} [LinearOrderedField α] [FloorRing α]
    (cfg : Config α) (atof : List Nat → α) (cosf : α → α) (s s1 : RoboBrain α) (b : Bool)
    (h : examine cfg atof cosf s = some (s1, b)) (hs : s.sentenceStart = true) :
    s1.sentenceStart = false → s1.charsReceived = 0 ∧ s1.partCount = 0 := by
  unfold examine at h
  cases hw : wrongType cfg s with
  | none => rw [hw] at h; cases h
  | some bw =>
    rw [hw] at h
    cases bw with
    | true =>
      simp only [Option.some.injEq, Prod.mk.injEq] at h
      obtain ⟨h, _⟩ := h
      subst h
      exact fun _ => ⟨rfl, rfl⟩
    | false =>
      simp only at h
      cases hv : voidStatus cfg s with
      | none => rw [hv] at h; cases h
      | some bv =>
        rw [hv] at h
        cases bv with
        | true =>
          simp only [Option.some.injEq, Prod.mk.injEq] at h
          obtain ⟨h, _⟩ := h
          subst h
          exact fun _ => ⟨rfl, rfl⟩
        | false =>
          simp only at h
          cases hd : sentenceDone cfg s with
          | none => rw [hd] at h; cases h
          | some bd =>
            rw [hd] at h
            cases bd with
            | true => exact fun _ => (checkSentence_counters cfg atof cosf s s1 b h).2
            | false =>
              simp only [Option.some.injEq, Prod.mk.injEq] at h
              obtain ⟨h, _⟩ := h
              subst h
              intro hf
              rw [hs] at hf
              cases hf

/-- A round of the loop keeps the invariant "idle implies both counters 0". -/
theorem navigateGPSChar_idle_counters {α : Type} [LinearOrderedField α] [FloorRing α]
    (cfg : Config α) (atof : List Nat → α) (cosf : α → α) (s s1 : RoboBrain α) (ch : Nat)
    (b : Bool) (h : navigateGPSChar cfg atof cosf s ch = some (s1, b))
    (hinv : s.sentenceStart = false → s.charsReceived = 0 ∧ s.partCount = 0) :
    s1.sentenceStart = false → s1.charsReceived = 0 ∧ s1.partCount = 0 := by
  simp only [navigateGPSChar] at h
  generalize hs0 : (if ch = 36 then { s with sentenceStart := true } else s) = s0 at h
  by_cases hss : s0.sentenceStart = false
  · rw [if_pos hss] at h
    simp only [Option.some.injEq, Prod.mk.injEq] at h
    obtain ⟨h, _⟩ := h
    subst h
    have hs : s0 = s := by
      rw [← hs0] at hss ⊢
      split at hss
      · cases hss
      · rw [if_neg (by assumption)]
    rw [hs]; exact hinv
  · rw [if_neg hss] at h
    cases hst : storeChar s0 ch with
    | none => rw [hst] at h; cases h
    | some s2 =>
      rw [hst] at h
      simp only at h
      have h2 : s2.sentenceStart = true := by
        rw [storeChar_start _ _ _ hst]
        cases hb : s0.sentenceStart with
        | true => rfl
        | false => exact absurd hb hss
      exact examine_idle_counters cfg atof cosf s2 s1 b h h2

theorem feed_idle_counters {α : Type} [LinearOrderedField α] [FloorRing α]
    (cfg : Config α) (atof : List Nat → α) (cosf : α → α) (bs : List Nat) :
    ∀ s s1 : RoboBrain α, feed cfg atof cosf s bs = some s1 →
      (s.sentenceStart = false → s.charsReceived = 0 ∧ s.partCount = 0) →
      (s1.sentenceStart = false → s1.charsReceived = 0 ∧ s1.partCount = 0) := by
  induction bs with
  | nil =>
    intro s s1 h hinv
    simp only [feed, Option.some.injEq] at h
    subst h
    exact hinv
  | cons c cs ih =>
    intro s s1 h hinv
    simp only [feed] at h
    cases hstep : navigateGPSChar cfg atof cosf s c with
    | none => rw [hstep] at h; cases h
    | some r =>
      obtain ⟨s2, b⟩ := r
      rw [hstep] at h
      simp only at h
      exact ih s2 s1 h (navigateGPSChar_idle_counters cfg atof cosf s s2 c b hstep hinv)

/-- C18.  In every state reached from the constructed one by feeding bytes, an idle parser
(`sentenceStart = false`) has `charsReceived = 0` and `partCount = 0`; so a `$`
read while idle is stored at offset 0 of the buffer and leaves the partition
count 0, although the code resets nothing on `$`. -/
theorem idle_implies_empty_counters {α : Type} [LinearOrderedField α] [FloorRing α]
    (cfg : Config α) (atof : List Nat → α) (cosf : α → α) (h e n : α) (nowpoint : Int)
    (lat0 long0 offSet : α) (nmeaCap partCap ofCap : Nat) (bs : List Nat) (s1 : RoboBrain α)
    (hfeed : feed cfg atof cosf
      (mkBrain h e n nowpoint lat0 long0 offSet nmeaCap partCap ofCap) bs = some s1) :
    (s1.sentenceStart = false → s1.charsReceived = 0 ∧ s1.partCount = 0) ∧
    (s1.sentenceStart = false → 0 < s1.nmeaReceived.length →
      ∃ s2, navigateGPSChar cfg atof cosf s1 36 = some (s2, false) ∧
        s2.sentenceStart = true ∧ s2.nmeaReceived[0]? = some 36 ∧
        s2.charsReceived = 1 ∧ s2.partCount = 0) := by
  have hinv := feed_idle_counters cfg atof cosf bs _ s1 hfeed (fun _ => ⟨rfl, rfl⟩)
  refine ⟨hinv, ?_⟩
  intro hs hlen
  obtain ⟨hc, hp⟩ := hinv hs
  refine ⟨accumulated s1 [36], ?_, rfl, ?_, rfl, ?_⟩
  · rw [navigateGPSChar_start cfg atof cosf s1 hc hp hlen, examine_dollar]
  · simp [accumulated]
  · simp [accumulated, delimOffsets, isDelim]

theorem idle_implies_empty_counters_witness :
    ∃ s1, feed (rmcConfig ℚ) atofDec (fun _ => 1) (mkBrain 0 0 0 1 100 200 0 82 20 0)
        (sentence nearBody 52 51) = some s1 ∧
      (s1.sentenceStart = false → s1.charsReceived = 0 ∧ s1.partCount = 0) ∧
      (s1.sentenceStart = false → 0 < s1.nmeaReceived.length →
        ∃ s2, navigateGPSChar (rmcConfig ℚ) atofDec (fun _ => 1) s1 36 = some (s2, false) ∧
          s2.sentenceStart = true ∧ s2.nmeaReceived[0]? = some 36 ∧
          s2.charsReceived = 1 ∧ s2.partCount = 0) := by
  obtain ⟨s1, h, _⟩ := navigateGPS_wellFormed (rmcConfig ℚ) atofDec (fun _ => 1)
    (mkBrain 0 0 0 1 100 200 0 82 20 0) nearBody 52 51
    ⟨by decide, by decide, by decide, ⟨4, 3, by decide, by decide, by decide⟩, by decide⟩
    (by unfold FieldsBeforeChecksum; decide) rfl rfl (by decide) (by decide) (by decide)
  have hf := feed_of_navigateGPS _ _ _ _ _ _ h
  exact ⟨s1, hf, idle_implies_empty_counters (rmcConfig ℚ) atofDec (fun _ => 1) 0 0 0 1 100 200
    0 82 20 0 (sentence nearBody 52 51) s1 hf⟩

/-! ## How many bytes one call reads -/

theorem navigateGPS_used {α : Type} [LinearOrderedField α] [FloorRing α]
    (cfg : Config α) (atof : List Nat → α) (cosf : α → α) (bs : List Nat) :
    ∀ (s s1 : RoboBrain α) (rest : List Nat),
      navigateGPS cfg atof cosf s bs = some (s1, rest) →
      ∃ used, bs = used ++ rest ∧ feed cfg atof cosf s used = some s1 ∧
        (rest ≠ [] → ∃ u c s2, used = u ++ [c] ∧ feed cfg atof cosf s u = some s2 ∧
          navigateGPSChar cfg atof cosf s2 c = some (s1, true)) := by
  induction bs with
  | nil =>
    intro s s1 rest h
    simp only [navigateGPS, Option.some.injEq, Prod.mk.injEq] at h
    obtain ⟨h1, h2⟩ := h
    subst h1; subst h2
    exact ⟨[], rfl, rfl, fun h => absurd rfl h⟩
  | cons c cs ih =>
    intro s s1 rest h
    simp only [navigateGPS] at h
    cases hstep : navigateGPSChar cfg atof cosf s c with
    | none => rw [hstep] at h; cases h
    | some r =>
      obtain ⟨s2, b⟩ := r
      rw [hstep] at h
      cases b with
      | true =>
        simp only [Option.some.injEq, Prod.mk.injEq] at h
        obtain ⟨h1, h2⟩ := h
        subst h1; subst h2
        refine ⟨[c], rfl, ?_, fun _ => ⟨[], c, s, rfl, rfl, hstep⟩⟩
        simp only [feed, hstep]
      | false =>
        simp only at h
        obtain ⟨used, hu, hf, hr⟩ := ih s2 s1 rest h
        refine ⟨c :: used, by rw [hu]; rfl, ?_, ?_⟩
        · simp only [feed, hstep]; exact hf
        · intro hne
          obtain ⟨u, c', s3, e1, e2, e3⟩ := hr hne
          refine ⟨c :: u, c', s3, by rw [e1]; rfl, ?_, e3⟩
          simp only [feed, hstep]; exact e2

/-- C11.  A coordinate field whose value is `100 * D + M` with `0 ≤ M < 60` is converted to
`D + M / 60` decimal degrees, a value in `[D, D + 1)`; the latitude of the fix
is that value negated exactly when the byte behind the N/S delimiter is `S`, the
longitude negated exactly when the byte behind the E/W delimiter is `W`; and
these are the values that an accepted sentence applies. -/
theorem coordinate_to_decimal_degrees {α : Type} [LinearOrderedField α] [FloorRing α]
    (cfg : Config α) (atof : List Nat → α) (cosf : α → α) (s0 : RoboBrain α)
    (body : List Nat) (h1 h2 : Nat) (wf : WellFormed cfg body h1 h2)
    (hcfg : FieldsBeforeChecksum cfg)
    (hc : s0.charsReceived = 0) (hp : s0.partCount = 0)
    (hfit : (sentence body h1 h2).length < s0.nmeaReceived.length)
    (hpfit : cfg.checksumSpot + 1 ≤ s0.partitions.length)
    (hclean : ∀ b ∈ s0.nmeaReceived, b ≠ 86)
    (D E : Nat) (M N : α) (hM0 : 0 ≤ M) (hM1 : M < 60) (hN0 : 0 ≤ N) (hN1 : N < 60)
    (hlat : atof (field (sentence body h1 h2) cfg.latSpot) = ((100 * D : Nat) : α) + M)
    (hlong : atof (field (sentence body h1 h2) cfg.longSpot) = ((100 * E : Nat) : α) + N) :
    toDecimalDegrees (((100 * D : Nat) : α) + M) = (D : α) + M / 60 ∧
    (D : α) ≤ (D : α) + M / 60 ∧ (D : α) + M / 60 < (D : α) + 1 ∧
    fixLat cfg atof (sentence body h1 h2) =
      (if fieldChar (sentence body h1 h2) cfg.nsSpot = some 83 then -((D : α) + M / 60)
       else (D : α) + M / 60) ∧
    fixLong cfg atof (sentence body h1 h2) =
      (if fieldChar (sentence body h1 h2) cfg.ewSpot = some 87 then -((E : α) + N / 60)
       else (E : α) + N / 60) ∧
    ∃ s1, navigateGPS cfg atof cosf s0 (sentence body h1 h2) = some (s1, []) ∧
      FixApplied cfg atof cosf s0 (sentence body h1 h2) s1 := by
  have hlatv := toDecimalDegrees_deg_min (α := α) D M hM0 (by linarith)
  have hlongv := toDecimalDegrees_deg_min (α := α) E N hN0 (by linarith)
  obtain ⟨s1, h, happ, _, _⟩ :=
    navigateGPS_wellFormed cfg atof cosf s0 body h1 h2 wf hcfg hc hp hfit hpfit hclean
  refine ⟨hlatv, ?_, ?_, ?_, ?_, s1, h, happ⟩
  · have : 0 ≤ M / 60 := div_nonneg hM0 (by norm_num)
    linarith
  · have : M / 60 < 1 := by rw [div_lt_one (by norm_num)]; exact hM1
    linarith
  · unfold fixLat
    rw [hlat, hlatv]
  · unfold fixLong
    rw [hlong, hlongv]

theorem coordinate_to_decimal_degrees_witness :
    toDecimalDegrees (((100 * 40 : Nat) : ℚ) + 30) = ((40 : Nat) : ℚ) + 30 / 60 ∧
    ((40 : Nat) : ℚ) ≤ ((40 : Nat) : ℚ) + 30 / 60 ∧
    ((40 : Nat) : ℚ) + 30 / 60 < ((40 : Nat) : ℚ) + 1 ∧
    fixLat (rmcConfig ℚ) atofDec (sentence halfBody 52 51) =
      (if fieldChar (sentence halfBody 52 51) (rmcConfig ℚ).nsSpot = some 83
       then -(((40 : Nat) : ℚ) + 30 / 60) else ((40 : Nat) : ℚ) + 30 / 60) ∧
    fixLong (rmcConfig ℚ) atofDec (sentence halfBody 52 51) =
      (if fieldChar (sentence halfBody 52 51) (rmcConfig ℚ).ewSpot = some 87
       then -(((105 : Nat) : ℚ) + 30 / 60) else ((105 : Nat) : ℚ) + 30 / 60) ∧
    ∃ s1, navigateGPS (rmcConfig ℚ) atofDec (fun _ => 1) gpsBrain (sentence halfBody 52 51) =
        some (s1, []) ∧
      FixApplied (rmcConfig ℚ) atofDec (fun _ => 1) gpsBrain (sentence halfBody 52 51) s1 :=
  coordinate_to_decimal_degrees (rmcConfig ℚ) atofDec (fun _ => 1) gpsBrain halfBody 52 51
    ⟨by decide, by decide, by decide, ⟨4, 3, by decide, by decide, by decide⟩, by decide⟩
    (by unfold FieldsBeforeChecksum; decide) rfl rfl (by decide) (by decide) (by decide)
    40 105 30 30 (by norm_num) (by norm_num) (by norm_num) (by norm_num)
    (by
      rw [show field (sentence halfBody 52 51) (rmcConfig ℚ).latSpot = bytes "4030" from by
        decide, atofDec_of_digits _ (by decide),
        show decValue (bytes "4030") = 4030 from by decide]
      norm_num)
    (by
      rw [show field (sentence halfBody 52 51) (rmcConfig ℚ).longSpot = bytes "10530" from by
        decide, atofDec_of_digits _ (by decide),
        show decValue (bytes "10530") = 10530 from by decide]
      norm_num)

/-! ## Bytes left in the buffer by a discarded sentence -/

/-- C19 (fails on the code).  The sentence `$GPRMC,1,A,4000,N,10500,W,0,90,1,0,E*43` is accepted
by the constructed parser (the origin becomes (40, -105), the heading 90).  Fed
after the discarded sentence `$GPRMC,1,V,...`, to an idle parser that differs
from the constructed one only in what `nmeaReceived` and `partitions` hold, it
is thrown away: when its second comma is stored, line 152 reads the byte behind
it, which is the `V` of the earlier sentence, and origin and heading stay as
they were. -/
theorem stale_void_discards_valid_sentence :
    feed (rmcConfig ℚ) atofDec (fun _ => 1) gpsBrain voidSentence = some afterVoid ∧
    afterVoid = { gpsBrain with nmeaReceived := afterVoid.nmeaReceived,
                                partitions := afterVoid.partitions } ∧
    afterVoid.nmeaReceived[9]? = some 86 ∧
    (∃ s2, feed (rmcConfig ℚ) atofDec (fun _ => 1) afterVoid (sentence nearBody 52 51) =
        some s2 ∧ s2.lat0 = 100 ∧ s2.long0 = 200 ∧ s2.heading = 0 ∧ s2.pos = gpsBrain.pos) ∧
    (∃ s3, feed (rmcConfig ℚ) atofDec (fun _ => 1) gpsBrain (sentence nearBody 52 51) =
        some s3 ∧ s3.lat0 = 40 ∧ s3.long0 = -105 ∧ s3.heading = 90) := by
  refine ⟨by rfl, by rfl, by decide, ?_, ?_⟩
  · exact ⟨discard (accumulated afterVoid (bytes "$GPRMC,1,")), by rfl, rfl, rfl, rfl, rfl⟩
  · obtain ⟨s3, h, happ, _, _⟩ :=
      navigateGPS_wellFormed (rmcConfig ℚ) atofDec (fun _ => 1) gpsBrain nearBody 52 51
        ⟨by decide, by decide, by decide, ⟨4, 3, by decide, by decide, by decide⟩, by decide⟩
        (by unfold FieldsBeforeChecksum; decide) rfl rfl (by decide) (by decide) (by decide)
    obtain ⟨_, _, _, hhead, hset, _⟩ := happ
    obtain ⟨hlat, hlong, _⟩ := hset (by show (100 : ℚ) > 90 ∧ (200 : ℚ) > 180; norm_num)
    have e3 : fixLat (rmcConfig ℚ) atofDec (sentence nearBody 52 51) = 40 := by
      rw [fixLat_whole (rmcConfig ℚ) _ (bytes "4000") 40 (by decide) (by decide) (by decide),
        if_neg (by decide)]
      norm_num
    have e4 : fixLong (rmcConfig ℚ) atofDec (sentence nearBody 52 51) = -105 := by
      rw [fixLong_whole (rmcConfig ℚ) _ (bytes "10500") 105 (by decide) (by decide)
        (by decide), if_pos (by decide)]
      norm_num
    have e5 : atofDec (α := ℚ) (field (sentence nearBody 52 51) (rmcConfig ℚ).headingSpot) =
        90 := by
      rw [show field (sentence nearBody 52 51) (rmcConfig ℚ).headingSpot = bytes "90" from by
        decide, atofDec_of_digits _ (by decide),
        show decValue (bytes "90") = 90 from by decide]
      norm_num
    exact ⟨s3, feed_of_navigateGPS _ _ _ _ _ _ h, hlat.trans e3, hlong.trans e4,
      hhead.trans e5⟩

end RoboSim
